import Mathlib

/-!
Verification of the wg-zimmer-tracker-zuerich acquisition pipeline.

This file gives a shallow embedding, in Lean 4, of the scraping /
pagination state machine and of the rate-limited enrichment batchers of
the repository, and proves (or refutes) the frozen specification claims
about them.  Each Python function that a claim refers to is translated
into an executable Lean definition keeping the source's control flow:
pure helpers become Lean functions, exceptions become `Except`, network
and browser effects become explicit environment parameters, and
wall-clock time becomes explicit duration inputs.
-/

namespace WgTracker

/-! ## Generic helpers shared by several components -/

/-- Translation of `chunked(lst, n) = [lst[i : i + n] for i in range(0, len(lst), n)]`
(defined identically in `src/geo/commutes.py` and
`src/fetch_listing_details/fetch_listing_details.py`).  Python raises
`ValueError` for `n = 0`; the theorems below always assume `0 < n`, and we
return `[]` in that unreachable case. -/
def chunked : List α → ℕ → List (List α)
  | [], _ => []
  | x :: xs, n =>
    if h : n = 0 then []
    else ((x :: xs).take n) :: chunked ((x :: xs).drop n) n
termination_by l _ => l.length
decreasing_by
  simp only [List.length_drop, List.length_cons]
  omega

theorem chunked_join {n : ℕ} (hn : 0 < n) (l : List α) :
    (chunked l n).flatten = l := by
  revert hn
  induction l, n using chunked.induct with
  | case1 m => intro _; simp [chunked]
  | case2 x xs => intro h0; omega
  | case3 x xs n h ih =>
    intro hn
    rw [chunked]
    simp only [h, dite_false, List.flatten_cons, ih hn, List.take_append_drop]

theorem chunked_mem_subset {n : ℕ} (hn : 0 < n) (l : List α) {c : List α}
    (hc : c ∈ chunked l n) {x : α} (hx : x ∈ c) : x ∈ l := by
  have : x ∈ (chunked l n).flatten := List.mem_flatten.mpr ⟨c, hc, hx⟩
  rwa [chunked_join hn] at this

/-- Substring test on character lists: does `needle` occur contiguously in
the second argument?  Models the Python `in` operator over `str`. -/
def containsSub (needle : List Char) : List Char → Bool
  | [] => needle.isPrefixOf []
  | c :: cs => needle.isPrefixOf (c :: cs) || containsSub needle cs

/-! ## C6: CAPTCHA detection branch in `submit_search_and_verify` (src/fetch.py) -/

/-- Lower-cased CAPTCHA marker string; the source computes
`"Das Verarbeiten der Anfrage".lower()` before the containment test. -/
def captchaMarker : String := "das verarbeiten der anfrage"

/-- Lower-casing of a character list; models Python `str.lower()` on the
ASCII range (the only characters occurring in the marker). -/
def lowerChars (cs : List Char) : List Char :=
  cs.map Char.toLower

/-- Translation of the test
`"Das Verarbeiten der Anfrage".lower() in page.content().lower()` from
`submit_search_and_verify` (src/fetch.py lines 206-207). -/
def containsCaptchaMarker (content : String) : Bool :=
  containsSub captchaMarker.data (lowerChars content.data)

/-- Possible outcomes of the post-submit verification step:
`captchaError` models `raise CapthaError("CAPTCHA detected")`,
`verificationFailed` models `raise ValueError("not on seach page ladnedn")`,
and `ok` models normal fall-through. -/
inductive VerifyOutcome where
  | captchaError
  | verificationFailed
  | ok
deriving DecidableEq

/-- Translation of the verification logic of `submit_search_and_verify`
(src/fetch.py lines 205-226): first the CAPTCHA marker test on the page
content, then the visibility check of the "Neue Suche" affordance. -/
def submit_search_and_verify (content : String) (neueSucheVisible : Bool) :
    VerifyOutcome :=
  if containsCaptchaMarker content then VerifyOutcome.captchaError
  else if neueSucheVisible then VerifyOutcome.ok
  else VerifyOutcome.verificationFailed

/-- C6: whenever the post-submit page content contains the known CAPTCHA
marker string, verification raises the dedicated CAPTCHA failure
(`CapthaError`), never the generic failure; and the generic verification
failure is raised exactly when the marker is absent and the "Neue Suche"
affordance is not visible within the timeout. -/
theorem captcha_branch_precedence (content : String) (visible : Bool) :
    (containsCaptchaMarker content = true →
      submit_search_and_verify content visible = VerifyOutcome.captchaError) ∧
    (submit_search_and_verify content visible = VerifyOutcome.verificationFailed ↔
      containsCaptchaMarker content = false ∧ visible = false) := by
  constructor
  · intro h
    simp [submit_search_and_verify, h]
  · unfold submit_search_and_verify
    cases hc : containsCaptchaMarker content <;> cases visible <;> simp

/-- Witness for C6: a concrete post-submit page containing the marker (in
the original mixed case) is classified as a CAPTCHA failure. -/
theorem captcha_branch_precedence_witness :
    submit_search_and_verify
      "Leider: Das Verarbeiten der Anfrage dauert zu lange." false =
      VerifyOutcome.captchaError ∧
    submit_search_and_verify "Ergebnisse gefunden" false =
      VerifyOutcome.verificationFailed :=
  ⟨(captcha_branch_precedence _ false).1 (by decide),
   (captcha_branch_precedence _ false).2.mpr (by decide)⟩

/-! ## C3: pagination counter parsing in `parse_wgzimmer_search_results`
(src/parse.py lines 83-104 and src/src/wg_zimmer_ch/fetch_table.py lines
63-84; both variants contain the identical pagination block). -/

/-- Whitespace class of Python's `\s` for ASCII text (the characters the
counter text can contain). -/
def isSpaceChar (c : Char) : Bool :=
  c = ' ' || c = '\t' || c = '\n' || c = '\r' || c = '\x0b' || c = '\x0c'

/-- Greedy `\s*`: drops the leading whitespace run. -/
def dropSpaces : List Char → List Char
  | [] => []
  | c :: cs => if isSpaceChar c then dropSpaces cs else c :: cs

/-- Greedy `\d+` (possibly empty `\d*`): splits off the leading digit run. -/
def takeDigits : List Char → List Char × List Char
  | [] => ([], [])
  | c :: cs =>
    if c.isDigit then (c :: (takeDigits cs).1, (takeDigits cs).2)
    else ([], c :: cs)

/-- Numeric value of a digit string, as Python `int()` computes it. -/
def digitsToNat (cs : List Char) : ℕ :=
  cs.foldl (fun a c => a * 10 + (c.toNat - 48)) 0

/-- Attempt to match the regex `Seite\s*(\d+)/(\d+)` at the head of the
character list.  The regex is deterministic here: after the greedy `\s*`
the next token `\d` is never whitespace, and after the greedy `\d+` the
next token `/` is never a digit, so no backtracking can occur. -/
def matchSeiteAt (cs : List Char) : Option (ℕ × ℕ) :=
  match cs with
  | c1 :: c2 :: c3 :: c4 :: c5 :: rest =>
    if c1 = 'S' ∧ c2 = 'e' ∧ c3 = 'i' ∧ c4 = 't' ∧ c5 = 'e' then
      match takeDigits (dropSpaces rest) with
      | ([], _) => none
      | (d1 :: ds1, r1) =>
        match r1 with
        | c :: r2 =>
          if c = '/' then
            match takeDigits r2 with
            | ([], _) => none
            | (d2 :: ds2, _) =>
              some (digitsToNat (d1 :: ds1), digitsToNat (d2 :: ds2))
          else none
        | [] => none
    else none
  | _ => none

/-- Leftmost search of `re.search(r"Seite\s*(\d+)/(\d+)", text)`: try a
match at every position, earliest position first. -/
def searchSeite : List Char → Option (ℕ × ℕ)
  | [] => none
  | c :: cs =>
    match matchSeiteAt (c :: cs) with
    | some r => some r
    | none => searchSeite cs

/-- Translation of the pagination block of `parse_wgzimmer_search_results`:
input is the stripped text of the `div.skip span.counter` element (`none`
when the element is absent); a regex match yields the two numbers, and
both a missing element and a failed match leave both values `None`
(only a warning is printed). -/
def parse_pagination (counterText : Option String) : Option ℕ × Option ℕ :=
  match counterText with
  | none => (none, none)
  | some t =>
    match searchSeite t.data with
    | some (x, y) => (some x, some y)
    | none => (none, none)

/-! ## C4: listing URL extraction (src/src/wg_zimmer_ch/fetch_table.py
lines 94-107, and src/parse.py lines 114-178, which differs in that its
`Listing(**listing_data)` call validates the joined URL as a pydantic
`HttpUrl` and skips the item on `ValidationError`). -/

/-- Link structure of one non-ad `li.search-result-entry` item: either no
`<a>` tag at all, an `<a>` tag with an `href` value, or an `<a>` tag
without an `href` attribute (in which case `link_tag["href"]` raises
`KeyError`, which the per-item `except` swallows, skipping the item).
For the parse.py variant the items are modeled with their non-URL fields
absent (`parse_date`/`parse_float` return `Optional` values and `adresse`
is a plain string, so only the `url`/`img_url` fields can fail pydantic
validation; the modeled items carry no image). -/
inductive ItemLink where
  | noTag
  | withHref (href : String)
  | tagNoHref
deriving DecidableEq

/-- Base URL constant of both parser variants. -/
def wgBaseUrl : String := "https://www.wgzimmer.ch"

/-- Boolean string-prefix test over the character lists. -/
def strStartsWith (s p : String) : Bool :=
  p.data.isPrefixOf s.data

/-- Characters allowed in a URL scheme (`urllib.parse.scheme_chars`:
ASCII letters, digits, `+`, `-`, `.`). -/
def schemeChar (c : Char) : Bool :=
  c.isAlpha || c.isDigit || c = '+' || c = '-' || c = '.'

/-- Break a character list at the first occurrence of `d`: `some (a, b)`
with the input equal to `a ++ d :: b` and `d` not in `a`, or `none` when
`d` does not occur (`str.find`/`str.split(d, 1)`). -/
def breakFirst (d : Char) : List Char → Option (List Char × List Char)
  | [] => none
  | c :: cs =>
    if c = d then some ([], cs)
    else
      match breakFirst d cs with
      | some ab => some (c :: ab.1, ab.2)
      | none => none

/-- Break a character list at the last occurrence of `d` (`str.rfind`). -/
def breakLast (d : Char) : List Char → Option (List Char × List Char)
  | [] => none
  | c :: cs =>
    match breakLast d cs with
    | some ab => some (c :: ab.1, ab.2)
    | none => if c = d then some ([], cs) else none

/-- Scheme recognition of `urllib.parse.urlsplit`: the text before the
first `:` is a scheme when it is nonempty, starts with an ASCII letter
and consists only of scheme characters; the scheme is lowercased and
returned with the remainder after the `:`. -/
def extractScheme (url : List Char) : Option (List Char × List Char) :=
  match breakFirst ':' url with
  | none => none
  | some ab =>
    match ab.1 with
    | [] => none
    | c0 :: _ =>
      if c0.isAlpha && ab.1.all schemeChar then
        some (ab.1.map Char.toLower, ab.2)
      else none

/-- Netloc split of `urlsplit` (`_splitnetloc`): the characters after
`//` up to the first `/`, `?` or `#`, and the remainder from there. -/
def splitNetloc : List Char → List Char × List Char
  | [] => ([], [])
  | c :: cs =>
    if c = '/' ∨ c = '?' ∨ c = '#' then ([], c :: cs)
    else
      let p := splitNetloc cs
      (c :: p.1, p.2)

/-- Params split of `urlparse` (`_splitparams`): split at the first `;`
inside the last path segment (after the last `/` when one exists,
anywhere otherwise); no `;` there means no params. -/
def splitParams (p : List Char) : List Char × List Char :=
  match breakLast '/' p with
  | some ab =>
    match breakFirst ';' ab.2 with
    | some bc => (ab.1 ++ '/' :: bc.1, bc.2)
    | none => (p, [])
  | none =>
    match breakFirst ';' p with
    | some ab => (ab.1, ab.2)
    | none => (p, [])

/-- Components of a parsed URL reference after the scheme has been
resolved (`urlparse` result minus the scheme). Empty means absent; the
reassembly below treats the two alike, exactly as Python's falsiness
tests do. -/
structure UrlParts where
  netloc : List Char
  path : List Char
  params : List Char
  query : List Char
  fragment : List Char
deriving DecidableEq

/-- Remainder of `urlparse(url, 'https')` after the scheme: netloc after
a leading `//`, then the fragment after the first `#`, the query after
the first `?`, and the params split off the last path segment. -/
def parseRest (rest : List Char) : UrlParts :=
  let nl :=
    match rest with
    | c1 :: c2 :: r => if c1 = '/' ∧ c2 = '/' then splitNetloc r else ([], rest)
    | _ => ([], rest)
  let fr :=
    match breakFirst '#' nl.2 with
    | some ab => ab
    | none => (nl.2, [])
  let qr :=
    match breakFirst '?' fr.1 with
    | some ab => ab
    | none => (fr.1, [])
  let pp := splitParams qr.1
  ⟨nl.1, pp.1, pp.2, qr.2, fr.2⟩

/-- `urlunsplit` with scheme `https`: reattach `//netloc` (inserting a
`/` before a rootless path), the `?query` and the `#fragment`. -/
def urlunsplit_https (netloc p query fragment : List Char) : List Char :=
  "https:".data ++
    ((if netloc ≠ [] ∨ p.take 2 = ['/', '/'] then
        '/' :: '/' :: (netloc ++ (if p ≠ [] ∧ p.head? ≠ some '/' then '/' :: p else p))
      else p) ++
      ((if query ≠ [] then '?' :: query else []) ++
        (if fragment ≠ [] then '#' :: fragment else [])))

/-- `urlunparse` with scheme `https`: rejoin `;params` to the path, then
`urlunsplit`. -/
def urlunparse_https (u : UrlParts) : List Char :=
  urlunsplit_https u.netloc
    (if u.params ≠ [] then u.path ++ ';' :: u.params else u.path) u.query u.fragment

/-- Python `str.split('/')` (total: the empty string yields `['']`). -/
def splitOnSlash : List Char → List (List Char)
  | [] => [[]]
  | c :: cs =>
    if c = '/' then [] :: splitOnSlash cs
    else
      match splitOnSlash cs with
      | s :: ss => (c :: s) :: ss
      | [] => [[c]]

/-- Inner filter of `urljoin`'s segment list: `segments[1:-1] =
filter(None, segments[1:-1])` drops empty segments strictly between the
first and the last. -/
def filterInnerAux : List (List Char) → List (List Char)
  | [] => []
  | [b] => [b]
  | b :: rest => if b = [] then filterInnerAux rest else b :: filterInnerAux rest

/-- Apply `filterInnerAux` to everything after the first element. -/
def filterInner : List (List Char) → List (List Char)
  | [] => []
  | a :: rest => a :: filterInnerAux rest

/-- Segment resolution loop of `urljoin`: `..` pops the accumulator
(ignoring the `IndexError` on an empty one), `.` is dropped, anything
else is appended. -/
def resolveSegs : List (List Char) → List (List Char) → List (List Char)
  | acc, [] => acc
  | acc, seg :: rest =>
    if seg = "..".data then resolveSegs acc.dropLast rest
    else if seg = ".".data then resolveSegs acc rest
    else resolveSegs (acc ++ [seg]) rest

/-- Relative-path resolution of `urljoin` against the base path `''` of
`https://www.wgzimmer.ch` (whose `base_parts` is `['']`): a rooted path
is split as is, otherwise `['']` is prepended and inner empty segments
dropped; `.`/`..` segments are resolved, a trailing `.`/`..` re-appends
the final `/`, and an empty join result becomes `/`. -/
def resolvePath (path : List Char) : List Char :=
  let segments :=
    if path.head? = some '/' then splitOnSlash path
    else filterInner ([] :: splitOnSlash path)
  let resolved :=
    if segments.getLast? = some ".".data ∨ segments.getLast? = some "..".data
    then resolveSegs [] segments ++ [[]] else resolveSegs [] segments
  let joined := List.intercalate ['/'] resolved
  if joined = [] then ['/'] else joined

/-- Host of the base URL. -/
def wgHost : List Char := "www.wgzimmer.ch".data

/-- Join logic of `urljoin` for scheme `https` against the base
`https://www.wgzimmer.ch` (netloc `www.wgzimmer.ch`, empty path, params,
query and fragment): a reference with its own netloc is reassembled as
is; one with neither path nor params keeps the base's empty path (its
query, when empty, falls back to the base's empty one); otherwise the
path is resolved against the base path. -/
def joinParts (u : UrlParts) : UrlParts :=
  if u.netloc ≠ [] then u
  else if u.path = [] ∧ u.params = [] then
    ⟨wgHost, [], [], u.query, u.fragment⟩
  else
    ⟨wgHost, resolvePath u.path, u.params, u.query, u.fragment⟩

/-- Continuation of `urljoin` once the reference's scheme has resolved to
`https` (explicitly or by the `urlparse(url, bscheme)` default): parse
the remainder, join against the base's components, reassemble. -/
def urljoin_https_rest (rest : List Char) : List Char :=
  urlunparse_https (joinParts (parseRest rest))

/-- Model of Python's `urllib.parse.urljoin("https://www.wgzimmer.ch",
rel)`: an empty reference returns the base; a reference whose recognized
scheme differs from `https` is returned unchanged (the
`scheme != bscheme or scheme not in uses_relative` early return — `https`
itself is in `uses_relative`); otherwise the reference is parsed, joined
and reassembled. ASCII references without IPv6 brackets are modeled (the
`ValueError` paths of `_check_bracketed_host`/`_checknetloc` are out of
scope). -/
def urljoin_wg (rel : String) : String :=
  if rel = "" then wgBaseUrl
  else
    match extractScheme rel.data with
    | some sr =>
      if sr.1 = "https".data then ⟨urljoin_https_rest sr.2⟩ else rel
    | none => ⟨urljoin_https_rest rel.data⟩

/-- Translation of the listing loop of `parse_wgzimmer_search_results`
(fetch_table.py lines 94-107): `listings.append(urljoin(base_url,
relative_url) if relative_url else None)` inside `try/except ...
continue`. -/
def extract_listing_urls : List ItemLink → List (Option String)
  | [] => []
  | ItemLink.noTag :: rest => none :: extract_listing_urls rest
  | ItemLink.withHref h :: rest =>
    (if h = "" then none else some (urljoin_wg h)) :: extract_listing_urls rest
  | ItemLink.tagNoHref :: rest => extract_listing_urls rest

/-- Scheme and host checks of pydantic's `HttpUrl` validation of the URL
strings reaching it here (all ASCII): the string is accepted when a
recognized scheme lowercases to `http` or `https` and a nonempty host
follows after `//`; everything else (`mailto:`, `javascript:`, `tel:`,
`ftp:` references passed through by `urljoin`, schemeless strings)
raises `ValidationError`. Length capping and host normalisation are out
of scope. -/
def isHttpUrl (s : String) : Bool :=
  match extractScheme s.data with
  | some sr =>
    (sr.1 = "http".data || sr.1 = "https".data) &&
      (match sr.2 with
       | c1 :: c2 :: r =>
         if c1 = '/' ∧ c2 = '/' then decide ((splitNetloc r).1 ≠ []) else false
       | _ => false)
  | none => false

/-- Translation of the listing loop of the `parse.py` variant (lines
114-178) projected to the URL field: `listing_data["url"] =
urljoin(base_url, relative_url) if relative_url else None`, then
`Listing(**listing_data)` validates `url` as `Optional[HttpUrl]` —
`None` passes, an invalid URL string raises `ValidationError`, which is
caught and the item not appended; an `href`-less anchor raises `KeyError`
in `link_tag["href"]`, caught by the outer handler, also skipping the
item. -/
def extract_listing_urls_py : List ItemLink → List (Option String)
  | [] => []
  | ItemLink.noTag :: rest => none :: extract_listing_urls_py rest
  | ItemLink.withHref h :: rest =>
    if h = "" then none :: extract_listing_urls_py rest
    else if isHttpUrl (urljoin_wg h) then
      some (urljoin_wg h) :: extract_listing_urls_py rest
    else extract_listing_urls_py rest
  | ItemLink.tagNoHref :: rest => extract_listing_urls_py rest

/-- Inputs of one results page that the parser inspects: the pagination
counter text (absent when the element is missing) and the link structure
of each real (non-ad) listing item. -/
structure PageInput where
  counterText : Option String
  items : List ItemLink

/-- Translation of `parse_wgzimmer_search_results(html, base_url)`:
returns `(current_page, total_pages, listings)`. -/
def parse_wgzimmer_search_results (inp : PageInput) :
    Option ℕ × Option ℕ × List (Option String) :=
  ((parse_pagination inp.counterText).1, (parse_pagination inp.counterText).2,
    extract_listing_urls inp.items)

/-! ### Lemmas about the counter regex -/

theorem isSpaceChar_not_digit {c : Char} (h : isSpaceChar c = true) :
    c.isDigit = false := by
  simp only [isSpaceChar, Bool.or_eq_true, decide_eq_true_eq] at h
  rcases h with ((((h | h) | h) | h) | h) | h <;> subst h <;> decide

theorem dropSpaces_append {ws : List Char} (hws : ∀ c ∈ ws, isSpaceChar c = true)
    (r : List Char) : dropSpaces (ws ++ r) = dropSpaces r := by
  induction ws with
  | nil => rfl
  | cons c cs ih =>
    have hc : isSpaceChar c = true := hws c (by simp)
    simp only [List.cons_append, dropSpaces, hc, if_true]
    exact ih fun x hx => hws x (by simp [hx])

theorem dropSpaces_not_space {r : List Char}
    (hr : r = [] ∨ ∃ c cs, r = c :: cs ∧ isSpaceChar c = false) :
    dropSpaces r = r := by
  rcases hr with rfl | ⟨c, cs, rfl, hc⟩
  · rfl
  · simp [dropSpaces, hc]

theorem takeDigits_all_digits {d : List Char} (hd : ∀ c ∈ d, c.isDigit = true)
    {r : List Char} (hr : r = [] ∨ ∃ c cs, r = c :: cs ∧ c.isDigit = false) :
    takeDigits (d ++ r) = (d, r) := by
  induction d with
  | nil =>
    rcases hr with rfl | ⟨c, cs, rfl, hc⟩
    · rfl
    · simp [takeDigits, hc]
  | cons c cs ih =>
    have hc : c.isDigit = true := hd c (by simp)
    simp [takeDigits, hc, ih fun x hx => hd x (by simp [hx])]

theorem takeDigits_sound : ∀ (cs : List Char) {d r : List Char},
    takeDigits cs = (d, r) → cs = d ++ r ∧ ∀ c ∈ d, c.isDigit = true := by
  intro cs
  induction cs with
  | nil =>
    intro d r h
    simp only [takeDigits, Prod.mk.injEq] at h
    obtain ⟨rfl, rfl⟩ := h
    simp
  | cons c cs ih =>
    intro d r h
    by_cases hc : c.isDigit = true
    · rcases hp : takeDigits cs with ⟨d0, r0⟩
      rw [takeDigits, hp] at h
      simp only [hc, if_true, Prod.mk.injEq] at h
      obtain ⟨rfl, rfl⟩ := h
      obtain ⟨heq, hdig⟩ := ih hp
      refine ⟨by simp [heq], ?_⟩
      intro x hx
      rcases List.mem_cons.mp hx with rfl | hx
      · exact hc
      · exact hdig x hx
    · rw [takeDigits] at h
      simp only [hc, if_false, Prod.mk.injEq] at h
      obtain ⟨rfl, rfl⟩ := h
      simp

theorem dropSpaces_sound : ∀ cs : List Char,
    ∃ ws, cs = ws ++ dropSpaces cs ∧ ∀ c ∈ ws, isSpaceChar c = true := by
  intro cs
  induction cs with
  | nil => exact ⟨[], rfl, by simp⟩
  | cons c cs ih =>
    by_cases hc : isSpaceChar c = true
    · obtain ⟨ws, heq, hws⟩ := ih
      refine ⟨c :: ws, ?_, ?_⟩
      · simp only [dropSpaces, hc, if_true, List.cons_append]
        rw [← heq]
      · intro x hx
        rcases List.mem_cons.mp hx with rfl | hx
        · exact hc
        · exact hws x hx
    · refine ⟨[], ?_, by simp⟩
      simp [dropSpaces, hc]

theorem takeDigits_cons_digit {c : Char} (hc : c.isDigit = true)
    (cs : List Char) :
    takeDigits (c :: cs) = (c :: (takeDigits cs).1, (takeDigits cs).2) := by
  simp [takeDigits, hc]

/-- Character-level completeness: a well-formed counter pattern starting at
the head of the list is matched, and the two captured numbers are exactly
the values of the two digit groups. -/
theorem matchSeiteAt_complete {ws dx dy : List Char}
    (hws : ∀ c ∈ ws, isSpaceChar c = true)
    (hdx : dx ≠ []) (hdxd : ∀ c ∈ dx, c.isDigit = true)
    (hdy : dy ≠ []) (hdyd : ∀ c ∈ dy, c.isDigit = true) :
    matchSeiteAt ('S' :: 'e' :: 'i' :: 't' :: 'e' :: (ws ++ (dx ++ '/' :: dy))) =
      some (digitsToNat dx, digitsToNat dy) := by
  obtain ⟨a, as, rfl⟩ := List.exists_cons_of_ne_nil hdx
  obtain ⟨b, bs, rfl⟩ := List.exists_cons_of_ne_nil hdy
  have hadig : a.isDigit = true := hdxd a (by simp)
  have hbdig : b.isDigit = true := hdyd b (by simp)
  have haspace : isSpaceChar a = false := by
    cases hsp : isSpaceChar a
    · rfl
    · rw [isSpaceChar_not_digit hsp] at hadig; cases hadig
  have hdrop : dropSpaces (ws ++ ((a :: as) ++ '/' :: (b :: bs))) =
      (a :: as) ++ '/' :: (b :: bs) := by
    rw [dropSpaces_append hws]
    exact dropSpaces_not_space (Or.inr ⟨a, as ++ '/' :: (b :: bs), by simp, haspace⟩)
  have htake1 : takeDigits ((a :: as) ++ '/' :: (b :: bs)) =
      (a :: as, '/' :: (b :: bs)) :=
    takeDigits_all_digits hdxd (Or.inr ⟨'/', b :: bs, rfl, by decide⟩)
  have htake2 : takeDigits (b :: bs) = (b :: bs, []) := by
    have := @takeDigits_all_digits (b :: bs) hdyd [] (Or.inl rfl)
    simpa using this
  simp only [matchSeiteAt, hdrop, htake1, htake2]
  simp

/-- Same shape with arbitrary digit continuation `post` after the second
group: the match still succeeds (the exact value of the second group may
extend into `post`). -/
theorem matchSeiteAt_some_of_shape {ws dx dy post : List Char}
    (hws : ∀ c ∈ ws, isSpaceChar c = true)
    (hdx : dx ≠ []) (hdxd : ∀ c ∈ dx, c.isDigit = true)
    (hdy : dy ≠ []) (hdyd : ∀ c ∈ dy, c.isDigit = true) :
    ∃ r, matchSeiteAt
        ('S' :: 'e' :: 'i' :: 't' :: 'e' :: (ws ++ (dx ++ '/' :: (dy ++ post)))) =
      some r := by
  obtain ⟨a, as, rfl⟩ := List.exists_cons_of_ne_nil hdx
  obtain ⟨b, bs, rfl⟩ := List.exists_cons_of_ne_nil hdy
  have hadig : a.isDigit = true := hdxd a (by simp)
  have hbdig : b.isDigit = true := hdyd b (by simp)
  have haspace : isSpaceChar a = false := by
    cases hsp : isSpaceChar a
    · rfl
    · rw [isSpaceChar_not_digit hsp] at hadig; cases hadig
  have hdrop : dropSpaces (ws ++ ((a :: as) ++ '/' :: ((b :: bs) ++ post))) =
      (a :: as) ++ '/' :: ((b :: bs) ++ post) := by
    rw [dropSpaces_append hws]
    exact dropSpaces_not_space
      (Or.inr ⟨a, as ++ '/' :: ((b :: bs) ++ post), by simp, haspace⟩)
  have htake1 : takeDigits ((a :: as) ++ '/' :: ((b :: bs) ++ post)) =
      (a :: as, '/' :: ((b :: bs) ++ post)) :=
    takeDigits_all_digits hdxd (Or.inr ⟨'/', (b :: bs) ++ post, rfl, by decide⟩)
  have htake2 := takeDigits_cons_digit hbdig (bs ++ post)
  refine ⟨(digitsToNat (a :: as),
    digitsToNat (b :: (takeDigits (bs ++ post)).1)), ?_⟩
  simp only [List.cons_append] at hdrop htake1
  simp only [matchSeiteAt, List.cons_append, hdrop, htake1, htake2]
  simp

/-- Soundness: a successful match decomposes the text into the literal
`Seite`, a whitespace run, two nonempty digit groups separated by `/`, and
a remainder; the captured numbers are the values of the groups. -/
theorem matchSeiteAt_sound {cs : List Char} {x y : ℕ}
    (h : matchSeiteAt cs = some (x, y)) :
    ∃ ws dx dy post,
      cs = 'S' :: 'e' :: 'i' :: 't' :: 'e' :: (ws ++ (dx ++ '/' :: (dy ++ post))) ∧
      (∀ c ∈ ws, isSpaceChar c = true) ∧
      dx ≠ [] ∧ (∀ c ∈ dx, c.isDigit = true) ∧
      dy ≠ [] ∧ (∀ c ∈ dy, c.isDigit = true) ∧
      x = digitsToNat dx ∧ y = digitsToNat dy := by
  unfold matchSeiteAt at h
  split at h
  case h_2 => exact absurd h (by simp)
  case h_1 c1 c2 c3 c4 c5 rest =>
    by_cases hcond : c1 = 'S' ∧ c2 = 'e' ∧ c3 = 'i' ∧ c4 = 't' ∧ c5 = 'e'
    case neg =>
      rw [if_neg hcond] at h
      exact absurd h (by simp)
    obtain ⟨rfl, rfl, rfl, rfl, rfl⟩ := hcond
    rw [if_pos ⟨rfl, rfl, rfl, rfl, rfl⟩] at h
    rcases hp1 : takeDigits (dropSpaces rest) with ⟨g1, r1⟩
    rw [hp1] at h
    obtain ⟨ws, hwseq, hws⟩ := dropSpaces_sound rest
    obtain ⟨heq1, hdig1⟩ := takeDigits_sound (dropSpaces rest) hp1
    cases g1 with
    | nil => exact Option.noConfusion h
    | cons d1 ds1 =>
    cases r1 with
    | nil => exact Option.noConfusion h
    | cons c r2 =>
    have h2 : (if c = '/' then
        (match takeDigits r2 with
          | ([], _) => none
          | (d2 :: ds2, _) =>
            some (digitsToNat (d1 :: ds1), digitsToNat (d2 :: ds2)))
        else none) = some (x, y) := h
    by_cases hc : c = '/'
    case neg =>
      rw [if_neg hc] at h2
      exact Option.noConfusion h2
    subst hc
    rw [if_pos rfl] at h2
    rcases hp2 : takeDigits r2 with ⟨g2, r3⟩
    rw [hp2] at h2
    obtain ⟨heq2, hdig2⟩ := takeDigits_sound r2 hp2
    cases g2 with
    | nil => exact Option.noConfusion h2
    | cons d2 ds2 =>
    have h3 : (digitsToNat (d1 :: ds1), digitsToNat (d2 :: ds2)) = (x, y) :=
      Option.some.inj h2
    injection h3 with hx hy
    refine ⟨ws, d1 :: ds1, d2 :: ds2, r3, ?_, hws, by simp, hdig1, by simp,
      hdig2, hx.symm, hy.symm⟩
    rw [hwseq, heq1, heq2]

theorem searchSeite_nil : searchSeite [] = none := rfl

theorem searchSeite_cons (c : Char) (cs : List Char) :
    searchSeite (c :: cs) =
      (match matchSeiteAt (c :: cs) with
        | some r => some r
        | none => searchSeite cs) := rfl

theorem searchSeite_some_suffix : ∀ (pre rest : List Char),
    (∃ r, matchSeiteAt rest = some r) →
    ∃ q, searchSeite (pre ++ rest) = some q := by
  intro pre
  induction pre with
  | nil =>
    intro rest h
    obtain ⟨r, hr⟩ := h
    match rest, hr with
    | c :: cs, hr => exact ⟨r, by rw [List.nil_append, searchSeite_cons, hr]⟩
  | cons c cs ih =>
    intro rest h
    rw [List.cons_append, searchSeite_cons]
    cases hm : matchSeiteAt (c :: (cs ++ rest)) with
    | none => exact ih rest h
    | some r => exact ⟨r, rfl⟩

theorem searchSeite_sound : ∀ (cs : List Char) {x y : ℕ},
    searchSeite cs = some (x, y) →
    ∃ pre ws dx dy post,
      cs = pre ++
        ('S' :: 'e' :: 'i' :: 't' :: 'e' :: (ws ++ (dx ++ '/' :: (dy ++ post)))) ∧
      (∀ c ∈ ws, isSpaceChar c = true) ∧
      dx ≠ [] ∧ (∀ c ∈ dx, c.isDigit = true) ∧
      dy ≠ [] ∧ (∀ c ∈ dy, c.isDigit = true) ∧
      x = digitsToNat dx ∧ y = digitsToNat dy := by
  intro cs
  induction cs with
  | nil => intro x y h; exact absurd h (by rw [searchSeite_nil] at h; exact Option.noConfusion h)
  | cons c cs ih =>
    intro x y h
    rw [searchSeite_cons] at h
    cases hm : matchSeiteAt (c :: cs) with
    | none =>
      rw [hm] at h
      obtain ⟨pre, ws, dx, dy, post, heq, hrest⟩ := ih h
      exact ⟨c :: pre, ws, dx, dy, post, by rw [List.cons_append, heq], hrest⟩
    | some r =>
      rw [hm] at h
      obtain rfl : r = (x, y) := by
        simpa using h
      obtain ⟨ws, dx, dy, post, heq, hrest⟩ := matchSeiteAt_sound hm
      exact ⟨[], ws, dx, dy, post, by rw [List.nil_append, heq], hrest⟩

/-- C3: for every page whose pagination counter text matches the fixed
`Seite X/Y` pattern, the parser returns `current_page = X` and
`total_pages = Y` exactly (part 2); for a page whose counter element is
absent (part 1) or whose counter text nowhere contains the pattern
(part 3), it returns `None` for both, as an ordinary non-error value. -/
theorem pagination_counter_parsing :
    (∀ inp : PageInput, inp.counterText = none →
      (parse_wgzimmer_search_results inp).1 = none ∧
      (parse_wgzimmer_search_results inp).2.1 = none) ∧
    (∀ (items : List ItemLink) (ws dx dy : List Char),
      (∀ c ∈ ws, isSpaceChar c = true) →
      dx ≠ [] → (∀ c ∈ dx, c.isDigit = true) →
      dy ≠ [] → (∀ c ∈ dy, c.isDigit = true) →
      (parse_wgzimmer_search_results
        ⟨some (String.mk ('S' :: 'e' :: 'i' :: 't' :: 'e' :: (ws ++ (dx ++ '/' :: dy)))),
          items⟩).1 = some (digitsToNat dx) ∧
      (parse_wgzimmer_search_results
        ⟨some (String.mk ('S' :: 'e' :: 'i' :: 't' :: 'e' :: (ws ++ (dx ++ '/' :: dy)))),
          items⟩).2.1 = some (digitsToNat dy)) ∧
    (∀ (t : String) (items : List ItemLink),
      (¬ ∃ pre ws dx dy post,
        t.data = pre ++
          ('S' :: 'e' :: 'i' :: 't' :: 'e' :: (ws ++ (dx ++ '/' :: (dy ++ post)))) ∧
        (∀ c ∈ ws, isSpaceChar c = true) ∧
        dx ≠ [] ∧ (∀ c ∈ dx, c.isDigit = true) ∧
        dy ≠ [] ∧ (∀ c ∈ dy, c.isDigit = true)) →
      (parse_wgzimmer_search_results ⟨some t, items⟩).1 = none ∧
      (parse_wgzimmer_search_results ⟨some t, items⟩).2.1 = none) := by
  refine ⟨?_, ?_, ?_⟩
  · intro inp h
    simp [parse_wgzimmer_search_results, parse_pagination, h]
  · intro items ws dx dy hws hdx hdxd hdy hdyd
    have hm := matchSeiteAt_complete hws hdx hdxd hdy hdyd
    have hs : searchSeite ('S' :: 'e' :: 'i' :: 't' :: 'e' :: (ws ++ (dx ++ '/' :: dy))) =
        some (digitsToNat dx, digitsToNat dy) := by
      rw [searchSeite_cons, hm]
    constructor <;>
      simp [parse_wgzimmer_search_results, parse_pagination, hs]
  · intro t items hnot
    cases hs : searchSeite t.data with
    | none =>
      constructor <;>
        simp [parse_wgzimmer_search_results, parse_pagination, hs]
    | some r =>
      exfalso
      rcases r with ⟨x, y⟩
      obtain ⟨pre, ws, dx, dy, post, heq, hws, hdx, hdxd, hdy, hdyd, _, _⟩ :=
        searchSeite_sound t.data hs
      exact hnot ⟨pre, ws, dx, dy, post, heq, hws, hdx, hdxd, hdy, hdyd⟩

/-- Witness for C3: the absent counter yields `(None, None)`; the concrete
counter text `Seite 2/4` yields exactly `(2, 4)`; the concrete
pattern-free text `keine Treffer` yields `(None, None)`. -/
theorem pagination_counter_parsing_witness :
    (parse_wgzimmer_search_results ⟨none, []⟩).1 = none ∧
    (parse_wgzimmer_search_results ⟨some "Seite 2/4", []⟩).1 = some 2 ∧
    (parse_wgzimmer_search_results ⟨some "Seite 2/4", []⟩).2.1 = some 4 ∧
    (parse_wgzimmer_search_results ⟨some "keine Treffer", []⟩).1 = none ∧
    (parse_wgzimmer_search_results ⟨some "keine Treffer", []⟩).2.1 = none := by
  have h2 := (pagination_counter_parsing.2.1 [] [' '] ['2'] ['4']
    (by decide) (by decide) (by decide) (by decide) (by decide))
  have h3 := pagination_counter_parsing.2.2 "keine Treffer" [] (by
    rintro ⟨pre, ws, dx, dy, post, heq, hws, hdx, hdxd, hdy, hdyd⟩
    have hsome : ∃ q, searchSeite ("keine Treffer".data) = some q := by
      rw [heq]
      exact searchSeite_some_suffix pre _
        (matchSeiteAt_some_of_shape hws hdx hdxd hdy hdyd)
    obtain ⟨q, hq⟩ := hsome
    have hnone : searchSeite ("keine Treffer".data) = none := by decide
    rw [hnone] at hq
    cases hq)
  have hstr : String.mk
      ('S' :: 'e' :: 'i' :: 't' :: 'e' :: ([' '] ++ (['2'] ++ '/' :: ['4']))) =
      "Seite 2/4" := by decide
  have hv2 : digitsToNat ['2'] = 2 := by decide
  have hv4 : digitsToNat ['4'] = 4 := by decide
  rw [hstr, hv2, hv4] at h2
  exact ⟨(pagination_counter_parsing.1 ⟨none, []⟩ rfl).1, h2.1, h2.2, h3.1, h3.2⟩

/-! ### C4 theorems -/

/-- Per-item effect of the URL-extraction loop: `none` in the result list
means the loop appended a successful projection, and an outer `none` means
the item was skipped by the `except: continue` handler. -/
def itemUrlEffect : ItemLink → Option (Option String)
  | ItemLink.noTag => some none
  | ItemLink.withHref h => some (if h = "" then none else some (urljoin_wg h))
  | ItemLink.tagNoHref => none

/-- Per-item effect of the parse.py variant: additionally to the
fetch_table.py effects, an item whose joined URL fails the `HttpUrl`
validation is skipped (`ValidationError` caught, no append). -/
def itemUrlEffectPy : ItemLink → Option (Option String)
  | ItemLink.noTag => some none
  | ItemLink.withHref h =>
    if h = "" then some none
    else if isHttpUrl (urljoin_wg h) then some (some (urljoin_wg h))
    else none
  | ItemLink.tagNoHref => none

theorem str_data_append (a b : String) : (a ++ b).data = a.data ++ b.data := by
  cases a; cases b; rfl

theorem urlunsplit_https_abs (n p q f : List Char) :
    "http".data <+: urlunsplit_https n p q f :=
  List.IsPrefix.trans (by decide) (List.prefix_append _ _)

theorem urljoin_https_rest_abs (rest : List Char) :
    "http".data <+: urljoin_https_rest rest :=
  urlunsplit_https_abs _ _ _ _

theorem extractScheme_empty_ne {sr : List Char × List Char}
    (h : extractScheme ("" : String).data = some sr) : False := by
  have h2 : (none : Option (List Char × List Char)) = some sr := h
  exact Option.noConfusion h2

/-- C4 amended: an entry lacking a link is included in the returned
sequence with a null URL (both parser variants produce `url=None` for
it), not excluded.  In fetch_table.py the only skipped entries are those
whose anchor lacks an `href` attribute (a caught `KeyError`), and a
present URL is `urljoin(base_url, href)` — which returns an href bearing
an explicit scheme other than `https` (such as `mailto:`, `javascript:`,
`tel:`, `ftp:`) unchanged, so a present URL need not be `http`-absolute;
an href without such a scheme does resolve to an absolute URL on the
`https` scheme.  In parse.py the pydantic `HttpUrl` validation
additionally skips every item whose joined URL is not an `http(s)` URL,
so there each present URL passes that check. -/
theorem listing_url_extraction :
    (∀ items : List ItemLink,
      extract_listing_urls items = items.filterMap itemUrlEffect) ∧
    (∀ items : List ItemLink,
      extract_listing_urls_py items = items.filterMap itemUrlEffectPy) ∧
    (∀ (rel : String) (sr : List Char × List Char),
      extractScheme rel.data = some sr → sr.1 ≠ "https".data →
      urljoin_wg rel = rel) ∧
    (∀ (rel : String) (sr : List Char × List Char),
      extractScheme rel.data = some sr → sr.1 = "https".data →
      "http".data <+: (urljoin_wg rel).data) ∧
    (∀ rel : String, extractScheme rel.data = none →
      "http".data <+: (urljoin_wg rel).data) ∧
    (∀ (items : List ItemLink) (s : String),
      some s ∈ extract_listing_urls_py items → isHttpUrl s = true) := by
  refine ⟨?_, ?_, ?_, ?_, ?_, ?_⟩
  · intro items
    induction items with
    | nil => rfl
    | cons it rest ih =>
      cases it <;>
        simp [extract_listing_urls, itemUrlEffect, List.filterMap_cons, ih]
  · intro items
    induction items with
    | nil => rfl
    | cons it rest ih =>
      cases it with
      | noTag =>
        simp [extract_listing_urls_py, itemUrlEffectPy, List.filterMap_cons, ih]
      | withHref hr =>
        by_cases he : hr = ""
        · simp [extract_listing_urls_py, itemUrlEffectPy, List.filterMap_cons, ih, he]
        · by_cases hv : isHttpUrl (urljoin_wg hr) = true
          · simp [extract_listing_urls_py, itemUrlEffectPy, List.filterMap_cons,
              ih, he, hv]
          · simp [extract_listing_urls_py, itemUrlEffectPy, List.filterMap_cons,
              ih, he, hv]
      | tagNoHref =>
        simp [extract_listing_urls_py, itemUrlEffectPy, List.filterMap_cons, ih]
  · intro rel sr h hne
    have hrel : ¬ rel = "" := by
      intro h0
      exact extractScheme_empty_ne (h0 ▸ h)
    unfold urljoin_wg
    rw [if_neg hrel, h]
    show (if sr.1 = "https".data then (⟨urljoin_https_rest sr.2⟩ : String) else rel)
      = rel
    rw [if_neg hne]
  · intro rel sr h he
    have hrel : ¬ rel = "" := by
      intro h0
      exact extractScheme_empty_ne (h0 ▸ h)
    unfold urljoin_wg
    rw [if_neg hrel, h]
    show "http".data <+:
      ((if sr.1 = "https".data then (⟨urljoin_https_rest sr.2⟩ : String) else rel)).data
    rw [if_pos he]
    exact urljoin_https_rest_abs sr.2
  · intro rel h
    by_cases hrel : rel = ""
    · subst hrel
      show "http".data <+: wgBaseUrl.data
      decide
    · unfold urljoin_wg
      rw [if_neg hrel, h]
      exact urljoin_https_rest_abs rel.data
  · intro items
    induction items with
    | nil =>
      intro s hs
      exact absurd hs (by simp [extract_listing_urls_py])
    | cons it rest ih =>
      intro s hs
      cases it with
      | noTag =>
        simp only [extract_listing_urls_py] at hs
        rcases List.mem_cons.mp hs with h1 | h1
        · exact absurd h1 (by simp)
        · exact ih s h1
      | withHref hr =>
        simp only [extract_listing_urls_py] at hs
        by_cases he : hr = ""
        · rw [if_pos he] at hs
          rcases List.mem_cons.mp hs with h1 | h1
          · exact absurd h1 (by simp)
          · exact ih s h1
        · rw [if_neg he] at hs
          by_cases hv : isHttpUrl (urljoin_wg hr) = true
          · rw [if_pos hv] at hs
            rcases List.mem_cons.mp hs with h1 | h1
            · obtain rfl : s = urljoin_wg hr := by simpa using h1
              exact hv
            · exact ih s h1
          · rw [if_neg hv] at hs
            exact ih s hs
      | tagNoHref =>
        simp only [extract_listing_urls_py] at hs
        exact ih s hs

/-- Counterexample for C4: a page with a single real entry that has no
link yields a returned sequence containing that entry with a null URL —
the entry is not excluded. -/
theorem listing_url_null_included :
    parse_wgzimmer_search_results ⟨none, [ItemLink.noTag]⟩ =
      (none, none, [none]) ∧
    none ∈ (parse_wgzimmer_search_results ⟨none, [ItemLink.noTag]⟩).2.2 := by
  constructor
  · rfl
  · simp [parse_wgzimmer_search_results, parse_pagination, extract_listing_urls]

/-- Witness for C4's amended theorem at concrete inputs: a root-relative
href resolves against the base URL to an absolute `https` URL; a
`mailto:` href passes through `urljoin` unchanged; the parse.py variant
drops an item whose joined URL (a passed-through `javascript:` href)
fails the `HttpUrl` validation while keeping the link-less item with a
null URL; and a URL present in its output passes that validation. -/
theorem listing_url_extraction_witness :
    extract_listing_urls [ItemLink.withHref "/zimmer/1", ItemLink.noTag] =
      [some "https://www.wgzimmer.ch/zimmer/1", none] ∧
    urljoin_wg "mailto:info@wgzimmer.ch" = "mailto:info@wgzimmer.ch" ∧
    "http".data <+: (urljoin_wg "/zimmer/1").data ∧
    extract_listing_urls_py
      [ItemLink.withHref "javascript:void(0)", ItemLink.noTag] = [none] ∧
    isHttpUrl "https://www.wgzimmer.ch/zimmer/1" = true :=
  ⟨by decide,
   listing_url_extraction.2.2.1 "mailto:info@wgzimmer.ch"
     ("mailto".data, "info@wgzimmer.ch".data) (by decide) (by decide),
   listing_url_extraction.2.2.2.2.1 "/zimmer/1" (by decide),
   by decide,
   listing_url_extraction.2.2.2.2.2
     [ItemLink.withHref "https://www.wgzimmer.ch/zimmer/1"]
     "https://www.wgzimmer.ch/zimmer/1" (by decide)⟩

/-! ## C8: date parsing (src/parse.py `parse_date` and
src/src/wg_zimmer_ch/fetch_table.py `last_aufgegeben_date`) -/

/-- Result of a successful `datetime.strptime(s, "%d.%m.%Y")`. -/
structure PDate where
  day : ℕ
  month : ℕ
  year : ℕ
deriving DecidableEq

/-- Calendar length of a month, as `datetime` validates it (Gregorian
leap-year rule). -/
def daysInMonth (m y : ℕ) : ℕ :=
  if m = 2 then (if y % 4 = 0 ∧ (y % 100 ≠ 0 ∨ y % 400 = 0) then 29 else 28)
  else if m = 4 ∨ m = 6 ∨ m = 9 ∨ m = 11 then 30 else 31

/-- Numeric value of an ASCII digit. -/
def readDigit (c : Char) : ℕ := c.toNat - 48

/-- Regex piece `(?P<Y>\d\d\d\d)` of `_strptime`: exactly four digits. -/
def rxYear (d m : ℕ) : List Char → Option (PDate × List Char)
  | y1 :: y2 :: y3 :: y4 :: rest =>
    if y1.isDigit ∧ y2.isDigit ∧ y3.isDigit ∧ y4.isDigit then
      some (⟨d, m,
        ((readDigit y1 * 10 + readDigit y2) * 10 + readDigit y3) * 10 +
          readDigit y4⟩, rest)
    else none
  | _ => none

def rxDotYear (d m : ℕ) : List Char → Option (PDate × List Char)
  | c :: rest => if c = '.' then rxYear d m rest else none
  | [] => none

/-- Two-digit alternatives of `%m` = `(1[0-2]|0[1-9]|[1-9])`: a two-digit
group with value in `1..12`, continuing with `\.` and the year. -/
def rxMonth2 (d : ℕ) : List Char → Option (PDate × List Char)
  | c1 :: c2 :: rest =>
    if c1.isDigit ∧ c2.isDigit ∧ 1 ≤ readDigit c1 * 10 + readDigit c2 ∧
        readDigit c1 * 10 + readDigit c2 ≤ 12 then
      rxDotYear d (readDigit c1 * 10 + readDigit c2) rest
    else none
  | _ => none

/-- One-digit alternative `[1-9]` of `%m`. -/
def rxMonth1 (d : ℕ) : List Char → Option (PDate × List Char)
  | c1 :: rest =>
    if c1.isDigit ∧ 1 ≤ readDigit c1 then rxDotYear d (readDigit c1) rest
    else none
  | [] => none

/-- Regex alternation `%m`: two-digit alternatives are tried before the
one-digit one, with backtracking on failure of the continuation. -/
def rxMonth (d : ℕ) (cs : List Char) : Option (PDate × List Char) :=
  (rxMonth2 d cs).orElse fun _ => rxMonth1 d cs

def rxDotMonth (d : ℕ) : List Char → Option (PDate × List Char)
  | c :: rest => if c = '.' then rxMonth d rest else none
  | [] => none

/-- Two-digit alternatives of `%d` = `(3[01]|[12]\d|0[1-9]|[1-9])`: a
two-digit group with value in `1..31`. -/
def rxDay2 : List Char → Option (PDate × List Char)
  | c1 :: c2 :: rest =>
    if c1.isDigit ∧ c2.isDigit ∧ 1 ≤ readDigit c1 * 10 + readDigit c2 ∧
        readDigit c1 * 10 + readDigit c2 ≤ 31 then
      rxDotMonth (readDigit c1 * 10 + readDigit c2) rest
    else none
  | _ => none

/-- One-digit alternative `[1-9]` of `%d`. -/
def rxDay1 : List Char → Option (PDate × List Char)
  | c1 :: rest =>
    if c1.isDigit ∧ 1 ≤ readDigit c1 then rxDotMonth (readDigit c1) rest
    else none
  | [] => none

/-- Whole regex phase of `strptime(s, "%d.%m.%Y")` (anchored at the start,
as `re.match` is). -/
def rxDMY (cs : List Char) : Option (PDate × List Char) :=
  (rxDay2 cs).orElse fun _ => rxDay1 cs

/-- Translation of `datetime.strptime(s, "%d.%m.%Y")` to an `Option`:
regex phase, then the `found.end() == len(data_string)` check
("unconverted data remains"), then the calendar validation performed by
the `datetime(year, month, day)` constructor.  Every failure raises
`ValueError` in Python; all collapse to `none` here. -/
def strptime_dmY (s : String) : Option PDate :=
  match rxDMY s.data with
  | some (dmy, rest) =>
    if rest = [] ∧ 1 ≤ dmy.year ∧ dmy.day ≤ daysInMonth dmy.month dmy.year then
      some dmy
    else none
  | none => none

/-- Text before the first occurrence of the literal `<br>`; models
`date_str.split("<br>")[0]`. -/
def splitBeforeBr : List Char → List Char
  | [] => []
  | c :: cs =>
    if ['<', 'b', 'r', '>'].isPrefixOf (c :: cs) then []
    else c :: splitBeforeBr cs

/-- Python `str.strip()` over the ASCII whitespace class. -/
def stripChars (cs : List Char) : List Char :=
  ((cs.dropWhile isSpaceChar).reverse.dropWhile isSpaceChar).reverse

/-- The cleaning `date_str.split("<br>")[0].strip()` of `parse_date`. -/
def cleanDateStr (s : String) : String :=
  String.mk (stripChars (splitBeforeBr s.data))

/-- Translation of `parse_date` (src/parse.py lines 39-50): a falsy input
(`None` or the empty string) yields `None`; otherwise the cleaned string
is given to `strptime`, whose `ValueError` is caught and turned into
`None` with a printed warning. -/
def parse_date (dateStr : Option String) : Option PDate :=
  match dateStr with
  | none => none
  | some s => if s = "" then none else strptime_dmY (cleanDateStr s)

/-- Translation of `last_aufgegeben_date` (fetch_table.py lines 151-163).
The input is the stripped text of `div.create-date strong` of each
matched item (`none` when the `strong` element is missing).  No item, or
a missing `strong`, returns `None`; otherwise `strptime` is called with
no exception handler, so a non-matching text raises `ValueError`. -/
def last_aufgegeben_date (items : List (Option String)) :
    Except String (Option PDate) :=
  match items.getLast? with
  | none => Except.ok none
  | some none => Except.ok none
  | some (some text) =>
    match strptime_dmY text with
    | some d => Except.ok (some d)
    | none => Except.error "ValueError"

/-! ### C8 lemmas and theorems -/

/-- The ASCII digit character of value `n < 10`. -/
def digitChar (n : ℕ) : Char := Char.ofNat (48 + n)

/-- Canonical zero-padded rendering `DD.MM.YYYY` of a date. -/
def fmtDMY (d m y : ℕ) : String :=
  String.mk [digitChar (d / 10), digitChar (d % 10), '.',
    digitChar (m / 10), digitChar (m % 10), '.',
    digitChar (y / 1000), digitChar (y / 100 % 10), digitChar (y / 10 % 10),
    digitChar (y % 10)]

theorem digitChar_isDigit {n : ℕ} (h : n < 10) : (digitChar n).isDigit = true := by
  interval_cases n <;> decide

theorem readDigit_digitChar {n : ℕ} (h : n < 10) : readDigit (digitChar n) = n := by
  interval_cases n <;> decide

theorem digitChar_ne_lt {n : ℕ} (h : n < 10) : digitChar n ≠ '<' := by
  interval_cases n <;> decide

theorem digitChar_not_space {n : ℕ} (h : n < 10) :
    isSpaceChar (digitChar n) = false := by
  interval_cases n <;> decide

theorem splitBeforeBr_id {l : List Char} (h : ∀ c ∈ l, c ≠ '<') :
    splitBeforeBr l = l := by
  induction l with
  | nil => rfl
  | cons c cs ih =>
    have hc : c ≠ '<' := h c (by simp)
    have hbeq : ('<' == c) = false := beq_eq_false_iff_ne.mpr (Ne.symm hc)
    have hpre : (['<', 'b', 'r', '>'].isPrefixOf (c :: cs)) = false := by
      simp [List.isPrefixOf, hbeq]
    simp only [splitBeforeBr, hpre, Bool.false_eq_true, if_false,
      List.cons.injEq, true_and]
    exact ih fun x hx => h x (by simp [hx])

theorem mem_splitBeforeBr {l : List Char} {c : Char}
    (h : c ∈ splitBeforeBr l) : c ∈ l := by
  induction l with
  | nil => exact absurd h (by simp [splitBeforeBr])
  | cons a as ih =>
    rw [splitBeforeBr] at h
    by_cases hp : (['<', 'b', 'r', '>'].isPrefixOf (a :: as)) = true
    · rw [if_pos hp] at h
      exact absurd h (by simp)
    · rw [if_neg hp] at h
      rcases List.mem_cons.mp h with rfl | h
      · simp
      · simp [ih h]

theorem dropWhile_no_space {l : List Char}
    (h : ∀ c ∈ l, isSpaceChar c = false) :
    l.dropWhile isSpaceChar = l := by
  cases l with
  | nil => rfl
  | cons c cs => simp [List.dropWhile_cons, h c (by simp)]

theorem stripChars_id {l : List Char} (h : ∀ c ∈ l, isSpaceChar c = false) :
    stripChars l = l := by
  unfold stripChars
  rw [dropWhile_no_space h,
    dropWhile_no_space (fun c hc => h c (List.mem_reverse.mp hc)),
    List.reverse_reverse]

theorem mem_stripChars {l : List Char} {c : Char} (h : c ∈ stripChars l) :
    c ∈ l := by
  unfold stripChars at h
  have h1 := List.mem_reverse.mp h
  have h2 := (@List.dropWhile_sublist _ ((l.dropWhile isSpaceChar).reverse)
    isSpaceChar).subset h1
  have h3 := List.mem_reverse.mp h2
  exact (@List.dropWhile_sublist _ l isSpaceChar).subset h3

theorem rxDMY_no_digit {l : List Char} (h : ∀ c ∈ l, c.isDigit = false) :
    rxDMY l = none := by
  have h1 : rxDay1 l = none := by
    cases l with
    | nil => rfl
    | cons c cs => simp [rxDay1, h c (by simp)]
  have h2 : rxDay2 l = none := by
    match l with
    | [] => rfl
    | [c] => rfl
    | c1 :: c2 :: rest => simp [rxDay2, h c1 (by simp)]
  rw [rxDMY, h2, h1]
  rfl

theorem daysInMonth_le_31 (m y : ℕ) : daysInMonth m y ≤ 31 := by
  unfold daysInMonth
  split
  · split <;> omega
  · split <;> omega

/-- Completeness of the `strptime` model on canonical zero-padded
`DD.MM.YYYY` strings of valid dates. -/
theorem strptime_complete {d m y : ℕ}
    (hd1 : 1 ≤ d) (hd2 : d ≤ daysInMonth m y) (hm1 : 1 ≤ m) (hm2 : m ≤ 12)
    (hy1 : 1 ≤ y) (hy2 : y ≤ 9999) :
    strptime_dmY (fmtDMY d m y) = some ⟨d, m, y⟩ := by
  have hd31 : d ≤ 31 := le_trans hd2 (daysInMonth_le_31 m y)
  have h1 : d / 10 < 10 := by omega
  have h2 : d % 10 < 10 := by omega
  have h3 : m / 10 < 10 := by omega
  have h4 : m % 10 < 10 := by omega
  have h5 : y / 1000 < 10 := by omega
  have h6 : y / 100 % 10 < 10 := by omega
  have h7 : y / 10 % 10 < 10 := by omega
  have h8 : y % 10 < 10 := by omega
  have hvd : readDigit (digitChar (d / 10)) * 10 +
      readDigit (digitChar (d % 10)) = d := by
    rw [readDigit_digitChar h1, readDigit_digitChar h2]; omega
  have hvm : readDigit (digitChar (m / 10)) * 10 +
      readDigit (digitChar (m % 10)) = m := by
    rw [readDigit_digitChar h3, readDigit_digitChar h4]; omega
  have hvy : ((readDigit (digitChar (y / 1000)) * 10 +
      readDigit (digitChar (y / 100 % 10))) * 10 +
      readDigit (digitChar (y / 10 % 10))) * 10 +
      readDigit (digitChar (y % 10)) = y := by
    rw [readDigit_digitChar h5, readDigit_digitChar h6, readDigit_digitChar h7,
      readDigit_digitChar h8]
    omega
  have hyear : rxYear d m [digitChar (y / 1000), digitChar (y / 100 % 10),
      digitChar (y / 10 % 10), digitChar (y % 10)] = some (⟨d, m, y⟩, []) := by
    rw [rxYear, if_pos ⟨digitChar_isDigit h5, digitChar_isDigit h6,
      digitChar_isDigit h7, digitChar_isDigit h8⟩, hvy]
  have hdoty : rxDotYear d m ('.' :: [digitChar (y / 1000),
      digitChar (y / 100 % 10), digitChar (y / 10 % 10), digitChar (y % 10)]) =
      some (⟨d, m, y⟩, []) := by
    rw [rxDotYear, if_pos rfl, hyear]
  have hmon2 : rxMonth2 d [digitChar (m / 10), digitChar (m % 10), '.',
      digitChar (y / 1000), digitChar (y / 100 % 10), digitChar (y / 10 % 10),
      digitChar (y % 10)] = some (⟨d, m, y⟩, []) := by
    rw [rxMonth2, if_pos ⟨digitChar_isDigit h3, digitChar_isDigit h4,
      by rw [hvm]; exact hm1, by rw [hvm]; exact hm2⟩, hvm]
    exact hdoty
  have hmon : rxMonth d [digitChar (m / 10), digitChar (m % 10), '.',
      digitChar (y / 1000), digitChar (y / 100 % 10), digitChar (y / 10 % 10),
      digitChar (y % 10)] = some (⟨d, m, y⟩, []) := by
    rw [rxMonth, hmon2]
    rfl
  have hdotm : rxDotMonth d ('.' :: [digitChar (m / 10), digitChar (m % 10),
      '.', digitChar (y / 1000), digitChar (y / 100 % 10),
      digitChar (y / 10 % 10), digitChar (y % 10)]) = some (⟨d, m, y⟩, []) := by
    rw [rxDotMonth, if_pos rfl]
    exact hmon
  have hday2 : rxDay2 [digitChar (d / 10), digitChar (d % 10), '.',
      digitChar (m / 10), digitChar (m % 10), '.', digitChar (y / 1000),
      digitChar (y / 100 % 10), digitChar (y / 10 % 10), digitChar (y % 10)] =
      some (⟨d, m, y⟩, []) := by
    rw [rxDay2, if_pos ⟨digitChar_isDigit h1, digitChar_isDigit h2,
      by rw [hvd]; exact hd1, by rw [hvd]; exact hd31⟩, hvd]
    exact hdotm
  have hrx : rxDMY (fmtDMY d m y).data = some (⟨d, m, y⟩, []) := by
    rw [show (fmtDMY d m y).data = [digitChar (d / 10), digitChar (d % 10), '.',
      digitChar (m / 10), digitChar (m % 10), '.', digitChar (y / 1000),
      digitChar (y / 100 % 10), digitChar (y / 10 % 10), digitChar (y % 10)]
      from rfl]
    rw [rxDMY, hday2]
    rfl
  unfold strptime_dmY
  rw [hrx]
  show (if ([] : List Char) = [] ∧ 1 ≤ y ∧ d ≤ daysInMonth m y then
    some (⟨d, m, y⟩ : PDate) else none) = some ⟨d, m, y⟩
  rw [if_pos ⟨rfl, hy1, hd2⟩]

theorem fmtDMY_chars {d m y : ℕ} (h1 : d / 10 < 10) (h2 : d % 10 < 10)
    (h3 : m / 10 < 10) (h4 : m % 10 < 10) (h5 : y / 1000 < 10)
    (h6 : y / 100 % 10 < 10) (h7 : y / 10 % 10 < 10) (h8 : y % 10 < 10) :
    ∀ c ∈ (fmtDMY d m y).data, c ≠ '<' ∧ isSpaceChar c = false := by
  intro c hc
  simp only [fmtDMY, List.mem_cons, List.not_mem_nil, or_false] at hc
  rcases hc with rfl | rfl | rfl | rfl | rfl | rfl | rfl | rfl | rfl | rfl
  exacts [⟨digitChar_ne_lt h1, digitChar_not_space h1⟩,
    ⟨digitChar_ne_lt h2, digitChar_not_space h2⟩, ⟨by decide, by decide⟩,
    ⟨digitChar_ne_lt h3, digitChar_not_space h3⟩,
    ⟨digitChar_ne_lt h4, digitChar_not_space h4⟩, ⟨by decide, by decide⟩,
    ⟨digitChar_ne_lt h5, digitChar_not_space h5⟩,
    ⟨digitChar_ne_lt h6, digitChar_not_space h6⟩,
    ⟨digitChar_ne_lt h7, digitChar_not_space h7⟩,
    ⟨digitChar_ne_lt h8, digitChar_not_space h8⟩]

/-- C8 amended: `parse_date` is total — `None`/empty input and any
non-matching string yield `None` (never an exception), and a string in
the fixed `DD.MM.YYYY` format denoting a valid date yields exactly that
date; `last_aufgegeben_date`, however, has no handler around `strptime`
(the separate counterexample shows it raising `ValueError`), and returns
the parsed date of the last item when the text does match. -/
theorem parse_date_never_raises :
    parse_date none = none ∧
    parse_date (some "") = none ∧
    (∀ d m y : ℕ, 1 ≤ d → d ≤ daysInMonth m y → 1 ≤ m → m ≤ 12 →
      1 ≤ y → y ≤ 9999 → parse_date (some (fmtDMY d m y)) = some ⟨d, m, y⟩) ∧
    (∀ s : String, (∀ c ∈ s.data, c.isDigit = false) →
      parse_date (some s) = none) ∧
    (∀ (items : List (Option String)) (text : String) (dt : PDate),
      items.getLast? = some (some text) → strptime_dmY text = some dt →
      last_aufgegeben_date items = Except.ok (some dt)) := by
  refine ⟨rfl, rfl, ?_, ?_, ?_⟩
  · intro d m y hd1 hd2 hm1 hm2 hy1 hy2
    have hd31 : d ≤ 31 := le_trans hd2 (daysInMonth_le_31 m y)
    have hchars := @fmtDMY_chars d m y
      (by omega) (by omega) (by omega) (by omega) (by omega) (by omega)
      (by omega) (by omega)
    have hne : fmtDMY d m y ≠ "" := by
      intro hcontra
      have := congrArg String.data hcontra
      simp [fmtDMY] at this
    have hclean : cleanDateStr (fmtDMY d m y) = fmtDMY d m y := by
      unfold cleanDateStr
      rw [splitBeforeBr_id (fun c hc => (hchars c hc).1),
        stripChars_id (fun c hc => (hchars c hc).2)]
    rw [parse_date, if_neg hne, hclean]
    exact strptime_complete hd1 hd2 hm1 hm2 hy1 hy2
  · intro s hnd
    by_cases hse : s = ""
    · rw [parse_date, if_pos hse]
    · rw [parse_date, if_neg hse]
      have hsub : ∀ c ∈ (cleanDateStr s).data, c.isDigit = false := by
        intro c hc
        exact hnd c (mem_splitBeforeBr (mem_stripChars hc))
      unfold strptime_dmY
      rw [rxDMY_no_digit hsub]
  · intro items text dt hlast hparse
    rw [last_aufgegeben_date, hlast]
    show (match strptime_dmY text with
      | some d => Except.ok (some d)
      | none => Except.error "ValueError") = Except.ok (some dt)
    rw [hparse]

/-- Counterexample for C8: the claim covers `last_aufgegeben_date`, but
that function calls `strptime` with no exception handler, so a
non-matching date text raises `ValueError` instead of yielding `None`. -/
theorem last_aufgegeben_date_raises :
    last_aufgegeben_date [some "garbage"] = Except.error "ValueError" := rfl

/-- Witness for C8's amended theorem: a canonical valid date parses to its
components, a digit-free string parses to `None`, and
`last_aufgegeben_date` returns the parsed date of a matching last item
(in the lenient one-digit-month form the source comment shows). -/
theorem parse_date_never_raises_witness :
    parse_date (some "18.05.2025") = some ⟨18, 5, 2025⟩ ∧
    parse_date (some "kein Datum") = none ∧
    last_aufgegeben_date [some "18.5.2025"] = Except.ok (some ⟨18, 5, 2025⟩) := by
  refine ⟨?_, ?_, ?_⟩
  · have h := parse_date_never_raises.2.2.1 18 5 2025 (by decide) (by decide)
      (by decide) (by decide) (by decide) (by decide)
    have he : fmtDMY 18 5 2025 = "18.05.2025" := by decide
    rwa [he] at h
  · exact parse_date_never_raises.2.2.2.1 "kein Datum" (by decide)
  · exact parse_date_never_raises.2.2.2.2 [some "18.5.2025"] "18.5.2025"
      ⟨18, 5, 2025⟩ (by decide) (by decide)

/-! ## C5 / C7 / C9: the pagination loop `scrape_results_pages`
(src/fetch.py lines 242-393).

The loop is driven by the page environment: for each page number, what the
parser returns from the page content, whether the wait for the pagination
indicator `Seite n/` succeeds (pages after the first), and the state of
the Next control.  The loop itself is modelled with a fuel parameter:
`none` means the fuel ran out before the loop broke (the Python loop is
not bounded a priori), `some (listings, iters)` means the loop broke
normally after parsing `iters` pages and accumulating `listings`. -/

/-- A `Listing` as the dedup pass of `scrape_results_pages` sees it: only
the (possibly null) canonical URL matters there. -/
structure PListing where
  url : Option String
deriving DecidableEq

/-- Result of `parse_wgzimmer_search_results` on one page's content. -/
structure PageData where
  current : Option ℕ
  total : Option ℕ
  listings : List PListing
deriving DecidableEq

/-- Observed state of the Next control: visible and enabled (clicked), or
any of the loop-breaking states (not visible, disabled, timeout while
checking, Playwright error). -/
inductive NextStatus where
  | clickable
  | notVisible
  | disabledBtn
  | timedOut
  | errored
deriving DecidableEq

/-- The page environment the loop interacts with. -/
structure ScrapeEnv where
  indicator : ℕ → Bool
  parse : ℕ → PageData
  nextBtn : ℕ → NextStatus

/-- Python line 294: `if total_pages_parsed is not None: total_pages = ...`. -/
def updTotal : Option ℕ → Option ℕ → Option ℕ
  | some t, _ => some t
  | none, tp => tp

/-- Python line 298: `current_page_parsed is not None and current_page_parsed != page_num`. -/
def staleCheck : Option ℕ → ℕ → Bool
  | some c, pageNum => c != pageNum
  | none, _ => false

/-- Python line 318: `total_pages is not None and page_num >= total_pages`. -/
def reachedTotal : Option ℕ → ℕ → Bool
  | some t, pageNum => decide (t ≤ pageNum)
  | none, _ => false

/-- Python lines 323-327: both freshly parsed and `current >= total`. -/
def reachedCurrentTotal : Option ℕ → Option ℕ → Bool
  | some c, some t => decide (t ≤ c)
  | _, _ => false

/-- The `while True` loop of `scrape_results_pages`, one iteration per
parsed page.  State: remaining fuel, `page_num`, tracked `total_pages`,
`all_listings`, and the count of pages parsed so far. -/
def scrapeLoopGo (env : ScrapeEnv) :
    ℕ → ℕ → Option ℕ → List PListing → ℕ → Option (List PListing × ℕ)
  | 0, _, _, _, _ => none
  | fuel + 1, pageNum, totalPages, acc, iters =>
    if 1 < pageNum ∧ env.indicator pageNum = false then some (acc, iters)
    else
      if staleCheck (env.parse pageNum).current pageNum then some (acc, iters + 1)
      else
        if reachedTotal (updTotal (env.parse pageNum).total totalPages) pageNum then
          some (acc ++ (env.parse pageNum).listings, iters + 1)
        else if reachedCurrentTotal (env.parse pageNum).current
            (env.parse pageNum).total then
          some (acc ++ (env.parse pageNum).listings, iters + 1)
        else
          match env.nextBtn pageNum with
          | NextStatus.clickable =>
            scrapeLoopGo env fuel (pageNum + 1)
              (updTotal (env.parse pageNum).total totalPages)
              (acc ++ (env.parse pageNum).listings) (iters + 1)
          | _ => some (acc ++ (env.parse pageNum).listings, iters + 1)

/-- Python line 384: `if listing.url not in seen_urls` (`None` is never in
the set, since only truthy URLs are added). -/
def urlSeen : Option String → List String → Bool
  | some s, seen => seen.contains s
  | none, _ => false

/-- Python line 386-387: `if listing.url: seen_urls.add(listing.url)`. -/
def addSeen : Option String → List String → List String
  | some s, seen => s :: seen
  | none, seen => seen

/-- The dedup pass of `scrape_results_pages` (lines 381-393). -/
def dedupGo : List PListing → List String → List PListing
  | [], _ => []
  | l :: rest, seen =>
    if urlSeen l.url seen then dedupGo rest seen
    else l :: dedupGo rest (addSeen l.url seen)

/-- `scrape_results_pages`: the pagination loop followed by the URL
deduplication of the accumulated listings. -/
def scrape_results_pages (env : ScrapeEnv) (fuel : ℕ) :
    Option (List PListing × ℕ) :=
  match scrapeLoopGo env fuel 1 none [] 0 with
  | none => none
  | some (allListings, iters) => some (dedupGo allListings [], iters)

/-! ### C7: staleness halts the loop -/

theorem scrapeLoopGo_stale {env : ScrapeEnv} {pageNum c : ℕ}
    (fuel : ℕ) (totalPages : Option ℕ) (acc : List PListing) (iters : ℕ)
    (hcur : (env.parse pageNum).current = some c) (hne : c ≠ pageNum)
    (hind : pageNum = 1 ∨ env.indicator pageNum = true) :
    scrapeLoopGo env (fuel + 1) pageNum totalPages acc iters =
      some (acc, iters + 1) := by
  rw [scrapeLoopGo]
  rw [if_neg (by
    rintro ⟨hgt, hfalse⟩
    rcases hind with rfl | hi
    · omega
    · rw [hi] at hfalse; cases hfalse)]
  rw [hcur]
  rw [if_pos (by simp [staleCheck, hne])]

/-- C7: whenever the page number parsed from the current page differs from
the page number the loop expects (and the page's pagination indicator was
seen, so the loop actually inspects the content), the loop halts at once,
returning only the listings accumulated from earlier pages, as a normal
`some` result — no exception path exists in this branch; at the top level
the whole run returns the deduplicated listings collected so far. -/
theorem pagination_stale_halts :
    (∀ (env : ScrapeEnv) (fuel pageNum : ℕ) (totalPages : Option ℕ)
      (acc : List PListing) (iters c : ℕ),
      (env.parse pageNum).current = some c → c ≠ pageNum →
      (pageNum = 1 ∨ env.indicator pageNum = true) →
      scrapeLoopGo env (fuel + 1) pageNum totalPages acc iters =
        some (acc, iters + 1)) ∧
    (∀ (env : ScrapeEnv) (fuel c : ℕ),
      (env.parse 1).current = some c → c ≠ 1 →
      scrape_results_pages env (fuel + 1) = some ([], 1)) := by
  constructor
  · intro env fuel pageNum totalPages acc iters c hcur hne hind
    exact scrapeLoopGo_stale fuel totalPages acc iters hcur hne hind
  · intro env fuel c hcur hne
    rw [scrape_results_pages,
      scrapeLoopGo_stale fuel none [] 0 hcur hne (Or.inl rfl)]
    rfl

/-- Witness environment for C7: the parser reports page 7 while the loop
is on page 1. -/
def staleEnv : ScrapeEnv where
  indicator := fun _ => true
  parse := fun _ => ⟨some 7, some 9, [⟨some "u"⟩]⟩
  nextBtn := fun _ => NextStatus.clickable

/-- Witness for C7: on the stale environment, the run returns the empty
partial result normally. -/
theorem pagination_stale_halts_witness :
    scrape_results_pages staleEnv 5 = some ([], 1) :=
  pagination_stale_halts.2 staleEnv 4 7 rfl (by decide)

/-! ### C9: deduplication by canonical URL -/

theorem urlSeen_some_iff (s : String) (seen : List String) :
    urlSeen (some s) seen = true ↔ s ∈ seen := by
  simp [urlSeen]

theorem dedupGo_count (u : String) : ∀ (l : List PListing) (seen : List String),
    (dedupGo l seen).countP (fun x => x.url == some u) =
      if u ∈ seen then 0
      else if l.any (fun x => x.url == some u) then 1 else 0 := by
  intro l
  induction l with
  | nil =>
    intro seen
    by_cases hm : u ∈ seen <;> simp [dedupGo, hm]
  | cons x rest ih =>
    intro seen
    rcases hxo : x.url with _ | s
    · rw [dedupGo, hxo, if_neg (by simp [urlSeen])]
      rw [List.countP_cons, ih, hxo]
      by_cases hm : u ∈ seen
      · simp [hm, addSeen]
      · simp [hm, addSeen, List.any_cons, hxo]
    · by_cases hseen : s ∈ seen
      · rw [dedupGo, hxo, if_pos ((urlSeen_some_iff s seen).mpr hseen), ih]
        by_cases hm : u ∈ seen
        · simp [hm]
        · have hsu : s ≠ u := fun hcontra => hm (hcontra ▸ hseen)
          simp [hm, List.any_cons, hxo, beq_iff_eq, hsu]
      · rw [dedupGo, hxo,
          if_neg (fun hcontra => hseen ((urlSeen_some_iff s seen).mp hcontra))]
        rw [List.countP_cons, ih, hxo]
        by_cases hsu : s = u
        · subst hsu
          simp [addSeen, hseen, List.any_cons, hxo, beq_iff_eq]
        · simp [addSeen, List.any_cons, hxo, beq_iff_eq, hsu, Ne.symm hsu]

/-- C9: for every run of the collection loop, the returned collection has
exactly one entry per distinct non-null canonical URL appearing in the
accumulated pages — a URL occurring on several pages appears exactly
once, with the duplicates dropped silently. -/
theorem dedup_by_url (env : ScrapeEnv) (fuel : ℕ) (allListings : List PListing)
    (iters : ℕ)
    (h : scrapeLoopGo env fuel 1 none [] 0 = some (allListings, iters)) :
    ∃ out, scrape_results_pages env fuel = some (out, iters) ∧
      ∀ u : String, out.countP (fun x => x.url == some u) =
        if allListings.any (fun x => x.url == some u) then 1 else 0 := by
  refine ⟨dedupGo allListings [], ?_, ?_⟩
  · rw [scrape_results_pages, h]
  · intro u
    rw [dedupGo_count]
    simp

/-- Witness environment for C9: two pages sharing the listing URL `b`. -/
def dedupEnv : ScrapeEnv where
  indicator := fun _ => true
  parse := fun n =>
    if n = 1 then ⟨some 1, some 2, [⟨some "a"⟩, ⟨some "b"⟩]⟩
    else ⟨some 2, some 2, [⟨some "b"⟩, ⟨some "c"⟩]⟩
  nextBtn := fun _ => NextStatus.clickable

/-- Witness for C9 at the overlapping two-page environment. -/
theorem dedup_by_url_witness :
    ∃ out, scrape_results_pages dedupEnv 3 = some (out, 2) ∧
      ∀ u : String, out.countP (fun x => x.url == some u) =
        if ([⟨some "a"⟩, ⟨some "b"⟩, ⟨some "b"⟩, ⟨some "c"⟩] : List PListing).any
            (fun x => x.url == some u) then 1 else 0 :=
  dedup_by_url dedupEnv 3 [⟨some "a"⟩, ⟨some "b"⟩, ⟨some "b"⟩, ⟨some "c"⟩] 2
    (by decide)

/-! ### C5: bounded pagination -/

theorem scrapeLoopGo_consistent_bound (env : ScrapeEnv) (T : ℕ)
    (ls : ℕ → List PListing)
    (hparse : ∀ k, 1 ≤ k → env.parse k = ⟨some k, some T, ls k⟩) :
    ∀ (fuel p : ℕ) (tp : Option ℕ) (acc : List PListing) (iters : ℕ),
      1 ≤ p → p ≤ T → T - p < fuel →
      ∃ out finIters,
        scrapeLoopGo env fuel p tp acc iters = some (out, finIters) ∧
        finIters ≤ iters + (T - p) + 1 := by
  intro fuel
  induction fuel with
  | zero => intro p tp acc iters h1 h2 h3; omega
  | succ fuel ih =>
    intro p tp acc iters h1 h2 h3
    rw [scrapeLoopGo]
    by_cases hstop : 1 < p ∧ env.indicator p = false
    · rw [if_pos hstop]
      exact ⟨acc, iters, rfl, by omega⟩
    rw [if_neg hstop, hparse p h1]
    rw [if_neg (by simp [staleCheck])]
    by_cases hTp : T ≤ p
    · rw [if_pos (by simp only [updTotal, reachedTotal, decide_eq_true_eq]; exact hTp)]
      exact ⟨_, _, rfl, by omega⟩
    · rw [if_neg (by simp only [updTotal, reachedTotal, decide_eq_true_eq]; exact hTp)]
      rw [if_neg (by simp only [reachedCurrentTotal, decide_eq_true_eq]; exact hTp)]
      cases hnb : env.nextBtn p with
      | clickable =>
        obtain ⟨out, fin, heq, hle⟩ := ih (p + 1) (updTotal (some T) tp)
          (acc ++ ls p) (iters + 1) (by omega) (by omega) (by omega)
        exact ⟨out, fin, heq, by omega⟩
      | notVisible => exact ⟨_, _, rfl, by omega⟩
      | disabledBtn => exact ⟨_, _, rfl, by omega⟩
      | timedOut => exact ⟨_, _, rfl, by omega⟩
      | errored => exact ⟨_, _, rfl, by omega⟩

/-- C5: when the parser reports consistent incrementing `(current, total)`
pairs (`current = k` on the k-th page, a fixed `total = T`), the loop
terminates — any fuel of at least `T` suffices — within at most `T`
parsed pages; and when the pagination indicator is absent (the parser
reports `None` for both values on page one and the indicator wait fails
on later pages), the loop terminates after exactly one parsed page,
returning that page's listings. -/
theorem pagination_loop_bounded :
    (∀ (env : ScrapeEnv) (T : ℕ) (ls : ℕ → List PListing) (fuel : ℕ),
      (∀ k, 1 ≤ k → env.parse k = ⟨some k, some T, ls k⟩) →
      1 ≤ T → T ≤ fuel →
      ∃ out iters, scrapeLoopGo env fuel 1 none [] 0 = some (out, iters) ∧
        iters ≤ T) ∧
    (∀ (env : ScrapeEnv) (ls : List PListing) (fuel : ℕ),
      env.parse 1 = ⟨none, none, ls⟩ →
      (∀ k, 1 < k → env.indicator k = false) → 2 ≤ fuel →
      scrapeLoopGo env fuel 1 none [] 0 = some (ls, 1)) := by
  constructor
  · intro env T ls fuel hparse hT hfuel
    obtain ⟨out, fin, heq, hle⟩ := scrapeLoopGo_consistent_bound env T ls
      hparse fuel 1 none [] 0 (by omega) hT (by omega)
    exact ⟨out, fin, heq, by omega⟩
  · intro env ls fuel hparse hind hfuel
    obtain ⟨f, rfl⟩ : ∃ f, fuel = (f + 1) + 1 := ⟨fuel - 2, by omega⟩
    rw [scrapeLoopGo]
    rw [if_neg (by rintro ⟨hgt, _⟩; omega)]
    rw [hparse]
    rw [if_neg (by simp [staleCheck])]
    rw [if_neg (by simp [reachedTotal, updTotal])]
    rw [if_neg (by simp [reachedCurrentTotal])]
    cases hnb : env.nextBtn 1 with
    | clickable =>
      show scrapeLoopGo env (f + 1) 2 none ([] ++ ls) 1 = some (ls, 1)
      rw [scrapeLoopGo]
      rw [if_pos ⟨by omega, hind 2 (by omega)⟩]
      simp
    | notVisible => simp
    | disabledBtn => simp
    | timedOut => simp
    | errored => simp

/-- Witness environment for C5 part one: consistent `(k, 3)` pagination. -/
def consistentEnv : ScrapeEnv where
  indicator := fun _ => true
  parse := fun k => ⟨some k, some 3, []⟩
  nextBtn := fun _ => NextStatus.clickable

/-- Witness environment for C5 part two: no pagination indicator at all. -/
def noCounterEnv : ScrapeEnv where
  indicator := fun k => decide (k ≤ 1)
  parse := fun _ => ⟨none, none, [⟨some "x"⟩]⟩
  nextBtn := fun _ => NextStatus.clickable

/-- Witness for C5: the consistent three-page run needs at most three
iterations, and the indicator-free run stops after exactly one. -/
theorem pagination_loop_bounded_witness :
    (∃ out iters, scrapeLoopGo consistentEnv 3 1 none [] 0 = some (out, iters) ∧
      iters ≤ 3) ∧
    scrapeLoopGo noCounterEnv 5 1 none [] 0 = some ([⟨some "x"⟩], 1) :=
  ⟨pagination_loop_bounded.1 consistentEnv 3 (fun _ => []) 3
    (fun _ _ => rfl) (by decide) (by decide),
   pagination_loop_bounded.2 noCounterEnv [⟨some "x"⟩] 5 rfl
    (fun k hk => by simp only [noCounterEnv, decide_eq_false_iff_not]; omega)
    (by decide)⟩

/-! ## C1 / C2 / C10: the rate-limited enrichment batchers
(src/src/geo/commutes.py `fetch_commutes` / `batch_fetch_commutes`, and
src/src/fetch_listing_details/fetch_listing_details.py
`batch_create_listing_stored`).

Outbound HTTP calls are abstracted into environment functions, wall-clock
chunk durations into explicit inputs, and the order in which worker
threads deposit their results into the shared dict into an arbitrary
permutation `reorder` of each chunk's results.  Sleeps performed by the
limiter are returned as an explicit list of durations. -/

/-- A `BaseListing` as `fetch_commutes` observes it: coordinates may be
unset, the two enrichment fields may be unset; the payloads of the
enrichment values are irrelevant to the batching logic. -/
structure BListing where
  url : String
  latitude : Option ℚ
  longitude : Option ℚ
  bike : Option Unit
  public_transport : Option Unit
deriving DecidableEq

/-- Python truthiness of `listing.latitude and listing.longitude`: both
set and neither equal to `0.0`. -/
def truthyCoords (l : BListing) : Prop :=
  ∃ lat lon, l.latitude = some lat ∧ l.longitude = some lon ∧
    lat ≠ 0 ∧ lon ≠ 0

/-- The successful body of `fetch_commutes`: `if not listing.bike:
listing.bike = fetch_bike_connection(...)`, and likewise for
`public_transport`. -/
def enrich (envB envP : ℚ → ℚ → Option Unit) (l : BListing) (lat lon : ℚ) :
    BListing :=
  { l with
    bike := match l.bike with
      | some b => some b
      | none => envB lat lon,
    public_transport := match l.public_transport with
      | some p => some p
      | none => envP lat lon }

/-- Translation of `fetch_commutes` (src/geo/commutes.py lines 16-27):
the leading `assert listing.latitude and listing.longitude` raises
`AssertionError` on a falsy (unset or zero) coordinate; otherwise the two
unset enrichment fields are fetched, a `None` fetch result leaving the
field unset. -/
def fetch_commutes (envB envP : ℚ → ℚ → Option Unit) (l : BListing) :
    Except String BListing :=
  match l.latitude, l.longitude with
  | some lat, some lon =>
    if lat ≠ 0 ∧ lon ≠ 0 then Except.ok (enrich envB envP l lat lon)
    else Except.error "AssertionError"
  | _, _ => Except.error "AssertionError"

/-- Value of `fetch_commutes` in the success case (a dummy fallback keeps
the function total; it is only used under a `truthyCoords` hypothesis). -/
def fetchOk (envB envP : ℚ → ℚ → Option Unit) (l : BListing) : BListing :=
  match fetch_commutes envB envP l with
  | Except.ok v => v
  | Except.error _ => l

/-- `list(executor.map(f, batch))`: results in submission order; the
first raised exception (in submission order) propagates when the results
are collected. -/
def mapExcept (f : α → Except ε β) : List α → Except ε (List β)
  | [] => Except.ok []
  | x :: xs =>
    match f x with
    | Except.error e => Except.error e
    | Except.ok y =>
      match mapExcept f xs with
      | Except.error e => Except.error e
      | Except.ok ys => Except.ok (y :: ys)

/-- One dict store `outputs[str(lst.url)] = lst`, keyed by the value's
own URL. -/
def insertOut (key : β → String) (m : String → Option β) (v : β) :
    String → Option β :=
  fun k => if k = key v then some v else m k

/-- The `for lst in results: outputs[str(lst.url)] = lst` loop; a later
store to the same key overwrites an earlier one. -/
def insertAllOut (key : β → String) (m : String → Option β) (rs : List β) :
    String → Option β :=
  rs.foldl (insertOut key) m

/-- The minute-chunk loop of `batch_fetch_commutes` (lines 39-51), with
the chunk index `i` tracked for the `i + 1 < len(chunks)` trailing-sleep
guard.  `dur i` is the wall-clock duration of chunk `i`'s worker-pool
work; the performed sleeps are accumulated in order. -/
def batch_fetch_commutes_go (envB envP : ℚ → ℚ → Option Unit)
    (reorder : List BListing → List BListing) (dur : ℕ → ℚ) (total : ℕ) :
    ℕ → List (List BListing) → (String → Option BListing) → List ℚ →
    (Except String (String → Option BListing)) × List ℚ
  | _, [], m, sleeps => (Except.ok m, sleeps)
  | i, c :: rest, m, sleeps =>
    match mapExcept (fetch_commutes envB envP) c with
    | Except.error e => (Except.error e, sleeps)
    | Except.ok results =>
      batch_fetch_commutes_go envB envP reorder dur total (i + 1) rest
        (insertAllOut BListing.url m (reorder results))
        (if dur i < 60 ∧ i + 1 < total then sleeps ++ [60 - dur i] else sleeps)

/-- Translation of `batch_fetch_commutes` (src/geo/commutes.py lines
30-53): chunking, the rate-limited chunk loop, and the final
order-restoring projection `[outputs[str(scr.url)] for scr in inputs]`
(whose missing key would raise `KeyError`). -/
def batch_fetch_commutes (envB envP : ℚ → ℚ → Option Unit)
    (reorder : List BListing → List BListing) (dur : ℕ → ℚ)
    (inputs : List BListing) (maxRequestsPerMinute : ℕ) :
    Except String (List BListing) × List ℚ :=
  match batch_fetch_commutes_go envB envP reorder dur
      (chunked inputs maxRequestsPerMinute).length 0
      (chunked inputs maxRequestsPerMinute) (fun _ => none) [] with
  | (Except.error e, sleeps) => (Except.error e, sleeps)
  | (Except.ok outputs, sleeps) =>
    (mapExcept (fun scr =>
      (outputs scr.url).elim (Except.error "KeyError") Except.ok) inputs,
     sleeps)

/-- A `ListingScraped`/`ListingStored` as the second batcher's loop sees
it: only the URL key matters to the batching logic. -/
structure SListing where
  url : String
deriving DecidableEq

/-- The second-batch loop of `batch_create_listing_stored` (lines 36-47):
per second-batch `j`, the work takes `wd j` seconds; if it took under one
second the loop sleeps the remainder, and the running minute-elapsed
clock advances by work plus sleep. -/
def bcls_sec_go (env : SListing → Except String SListing) (wd : ℕ → ℚ) :
    ℕ → List (List SListing) → (String → Option SListing) → List ℚ → ℚ →
    (Except String (String → Option SListing)) × List ℚ × ℚ
  | _, [], m, sleeps, elapsed => (Except.ok m, sleeps, elapsed)
  | j, sb :: rest, m, sleeps, elapsed =>
    match mapExcept env sb with
    | Except.error e => (Except.error e, sleeps, elapsed)
    | Except.ok results =>
      bcls_sec_go env wd (j + 1) rest (insertAllOut SListing.url m results)
        (if wd j < 1 then sleeps ++ [1 - wd j] else sleeps)
        (if wd j < 1 then elapsed + wd j + (1 - wd j) else elapsed + wd j)

/-- The minute-chunk loop of `batch_create_listing_stored` (lines 32-51):
after each minute chunk — the final one included, there is no index
guard — the loop sleeps out the remainder of the minute whenever the
chunk's elapsed time (work plus inner sleeps) is under 60 seconds. -/
def bcls_min_go (env : SListing → Except String SListing)
    (wd : ℕ → ℕ → ℚ) (nsec : ℕ) :
    ℕ → List (List SListing) → (String → Option SListing) → List ℚ →
    (Except String (String → Option SListing)) × List ℚ
  | _, [], m, sleeps => (Except.ok m, sleeps)
  | i, mb :: rest, m, sleeps =>
    match bcls_sec_go env (wd i) 0 (chunked mb nsec) m sleeps 0 with
    | (Except.error e, s, _) => (Except.error e, s)
    | (Except.ok m2, s, elapsed) =>
      bcls_min_go env wd nsec (i + 1) rest m2
        (if elapsed < 60 then s ++ [60 - elapsed] else s)

/-- Translation of `batch_create_listing_stored` (lines 24-53): nested
minute/second chunking, the windowed loops, and the order-restoring
projection over the inputs. -/
def batch_create_listing_stored (env : SListing → Except String SListing)
    (wd : ℕ → ℕ → ℚ) (inputs : List SListing) (nmin nsec : ℕ) :
    Except String (List SListing) × List ℚ :=
  match bcls_min_go env wd nsec 0 (chunked inputs nmin) (fun _ => none) [] with
  | (Except.error e, sleeps) => (Except.error e, sleeps)
  | (Except.ok outputs, sleeps) =>
    (mapExcept (fun scr =>
      (outputs scr.url).elim (Except.error "KeyError") Except.ok) inputs,
     sleeps)

/-! ### Lemmas about `fetch_commutes`, the worker map, and the result dict -/

theorem fetch_commutes_ok (envB envP : ℚ → ℚ → Option Unit) {l : BListing}
    (h : truthyCoords l) :
    fetch_commutes envB envP l = Except.ok (fetchOk envB envP l) ∧
    (fetchOk envB envP l).url = l.url := by
  obtain ⟨lat, lon, hlat, hlon, h0, h1⟩ := h
  have he : fetch_commutes envB envP l =
      Except.ok (enrich envB envP l lat lon) := by
    unfold fetch_commutes
    rw [hlat, hlon]
    show (if lat ≠ 0 ∧ lon ≠ 0 then Except.ok (enrich envB envP l lat lon)
      else Except.error "AssertionError") = _
    rw [if_pos ⟨h0, h1⟩]
  have hf : fetchOk envB envP l = enrich envB envP l lat lon := by
    unfold fetchOk
    rw [he]
  exact ⟨by rw [he, hf], by rw [hf]; rfl⟩

theorem fetch_commutes_error (envB envP : ℚ → ℚ → Option Unit) {l : BListing}
    (h : ¬ truthyCoords l) :
    fetch_commutes envB envP l = Except.error "AssertionError" := by
  unfold fetch_commutes
  rcases hlat : l.latitude with _ | lat
  · rfl
  · rcases hlon : l.longitude with _ | lon
    · rfl
    · show (if lat ≠ 0 ∧ lon ≠ 0 then _ else Except.error "AssertionError") = _
      rw [if_neg (fun hc => h ⟨lat, lon, hlat, hlon, hc.1, hc.2⟩)]

theorem fetch_commutes_shape (envB envP : ℚ → ℚ → Option Unit) (l : BListing) :
    (∃ v, fetch_commutes envB envP l = Except.ok v) ∨
    fetch_commutes envB envP l = Except.error "AssertionError" := by
  unfold fetch_commutes
  rcases hlat : l.latitude with _ | lat
  · exact Or.inr rfl
  · rcases hlon : l.longitude with _ | lon
    · exact Or.inr rfl
    · by_cases hc : lat ≠ 0 ∧ lon ≠ 0
      · refine Or.inl ⟨enrich envB envP l lat lon, ?_⟩
        show (if lat ≠ 0 ∧ lon ≠ 0 then Except.ok (enrich envB envP l lat lon)
          else Except.error "AssertionError") = _
        rw [if_pos hc]
      · refine Or.inr ?_
        show (if lat ≠ 0 ∧ lon ≠ 0 then Except.ok (enrich envB envP l lat lon)
          else Except.error "AssertionError") = _
        rw [if_neg hc]

theorem mapExcept_ok_of_forall {f : α → Except ε β} {g : α → β} (l : List α)
    (h : ∀ x ∈ l, f x = Except.ok (g x)) :
    mapExcept f l = Except.ok (l.map g) := by
  induction l with
  | nil => rfl
  | cons x xs ih =>
    rw [mapExcept, h x (by simp), ih (fun y hy => h y (by simp [hy]))]
    rfl

theorem mapExcept_error_mem {f : α → Except ε β} {e : ε} :
    ∀ {l : List α}, mapExcept f l = Except.error e →
    ∃ x ∈ l, f x = Except.error e := by
  intro l
  induction l with
  | nil => intro h; cases h
  | cons x xs ih =>
    intro h
    rw [mapExcept] at h
    rcases hf : f x with e2 | y
    · rw [hf] at h
      obtain rfl : e2 = e := by
        injection h
      exact ⟨x, by simp, hf⟩
    · rw [hf] at h
      rcases hm : mapExcept f xs with e2 | ys
      · rw [hm] at h
        obtain rfl : e2 = e := by
          injection h
        obtain ⟨z, hz, hfz⟩ := ih hm
        exact ⟨z, by simp [hz], hfz⟩
      · rw [hm] at h
        cases h

theorem mapExcept_ok_forall {f : α → Except ε β} :
    ∀ {l : List α} {ys : List β}, mapExcept f l = Except.ok ys →
    ∀ x ∈ l, ∃ y, f x = Except.ok y := by
  intro l
  induction l with
  | nil => intro ys _ x hx; exact absurd hx (by simp)
  | cons a as ih =>
    intro ys h x hx
    rw [mapExcept] at h
    rcases hf : f a with e | y
    · rw [hf] at h; cases h
    · rw [hf] at h
      rcases hm : mapExcept f as with e | zs
      · rw [hm] at h; cases h
      · rcases List.mem_cons.mp hx with rfl | hx2
        · exact ⟨y, hf⟩
        · exact ih hm x hx2

theorem insertAllOut_inv {key : β → String} (R : β → Prop) :
    ∀ (rs : List β) (m : String → Option β),
      (∀ k v, m k = some v → key v = k ∧ R v) →
      (∀ r ∈ rs, R r) →
      ∀ k v, insertAllOut key m rs k = some v → key v = k ∧ R v := by
  intro rs
  induction rs with
  | nil => intro m hm _ k v h; exact hm k v h
  | cons r rest ih =>
    intro m hm hR k v h
    refine ih (insertOut key m r) ?_ (fun x hx => hR x (by simp [hx])) k v h
    intro k2 v2 h2
    unfold insertOut at h2
    by_cases hk : k2 = key r
    · rw [if_pos hk] at h2
      obtain rfl : r = v2 := by
        injection h2
      exact ⟨hk.symm, hR r (by simp)⟩
    · rw [if_neg hk] at h2
      exact hm k2 v2 h2

theorem insertAllOut_isSome_mono {key : β → String} :
    ∀ (rs : List β) (m : String → Option β) (k : String),
      (m k).isSome = true → ((insertAllOut key m rs) k).isSome = true := by
  intro rs
  induction rs with
  | nil => intro m k h; exact h
  | cons r rest ih =>
    intro m k h
    refine ih (insertOut key m r) k ?_
    unfold insertOut
    by_cases hk : k = key r
    · rw [if_pos hk]; rfl
    · rw [if_neg hk]; exact h

theorem insertAllOut_isSome_of_mem {key : β → String} :
    ∀ (rs : List β) (m : String → Option β) {r : β}, r ∈ rs →
      ((insertAllOut key m rs) (key r)).isSome = true := by
  intro rs
  induction rs with
  | nil => intro m r h; exact absurd h (by simp)
  | cons a as ih =>
    intro m r h
    rcases List.mem_cons.mp h with rfl | h2
    · refine insertAllOut_isSome_mono as (insertOut key m r) (key r) ?_
      unfold insertOut
      rw [if_pos rfl]
      rfl
    · exact ih (insertOut key m a) h2

/-! ### C1: order preservation and fault isolation of `batch_fetch_commutes` -/

theorem bfc_go_props (envB envP : ℚ → ℚ → Option Unit)
    (reorder : List BListing → List BListing)
    (hre : ∀ rs, List.Perm (reorder rs) rs) (dur : ℕ → ℚ) (total : ℕ)
    (Q : BListing → Prop) :
    ∀ (chunks : List (List BListing)) (i : ℕ)
      (m : String → Option BListing) (sleeps : List ℚ),
      (∀ c ∈ chunks, ∀ l ∈ c, truthyCoords l ∧ Q l) →
      (∀ k v, m k = some v → v.url = k ∧
        ∃ l0, Q l0 ∧ l0.url = k ∧
          fetch_commutes envB envP l0 = Except.ok v) →
      ∃ m2 sleeps2,
        batch_fetch_commutes_go envB envP reorder dur total i chunks m sleeps =
          (Except.ok m2, sleeps2) ∧
        (∀ k v, m2 k = some v → v.url = k ∧
          ∃ l0, Q l0 ∧ l0.url = k ∧
            fetch_commutes envB envP l0 = Except.ok v) ∧
        (∀ k, (m k).isSome = true → (m2 k).isSome = true) ∧
        (∀ l ∈ chunks.flatten, (m2 l.url).isSome = true) := by
  intro chunks
  induction chunks with
  | nil =>
    intro i m sleeps hch hinv
    exact ⟨m, sleeps, rfl, hinv, fun k h => h, by simp⟩
  | cons c rest ih =>
    intro i m sleeps hch hinv
    have htr : ∀ l ∈ c, truthyCoords l := fun l hl => (hch c (by simp) l hl).1
    have hmap : mapExcept (fetch_commutes envB envP) c =
        Except.ok (c.map (fetchOk envB envP)) :=
      mapExcept_ok_of_forall c
        (fun x hx => (fetch_commutes_ok envB envP (htr x hx)).1)
    have hinv2 : ∀ k v,
        insertAllOut BListing.url m (reorder (c.map (fetchOk envB envP))) k =
          some v →
        v.url = k ∧ ∃ l0, Q l0 ∧ l0.url = k ∧
          fetch_commutes envB envP l0 = Except.ok v := by
      intro k v h
      have hbase : ∀ k2 v2, m k2 = some v2 → BListing.url v2 = k2 ∧
          ∃ l0, Q l0 ∧ l0.url = v2.url ∧
            fetch_commutes envB envP l0 = Except.ok v2 := by
        intro k2 v2 h2
        obtain ⟨hu, l0, hQ0, hl0, hf0⟩ := hinv k2 v2 h2
        exact ⟨hu, l0, hQ0, by rw [hl0, hu], hf0⟩
      have hins : ∀ r ∈ reorder (c.map (fetchOk envB envP)),
          ∃ l0, Q l0 ∧ l0.url = r.url ∧
            fetch_commutes envB envP l0 = Except.ok r := by
        intro r hr
        have hr2 : r ∈ c.map (fetchOk envB envP) := ((hre _).mem_iff).mp hr
        obtain ⟨l0, hl0, rfl⟩ := List.mem_map.mp hr2
        exact ⟨l0, (hch c (by simp) l0 hl0).2,
          ((fetch_commutes_ok envB envP (htr l0 hl0)).2).symm,
          (fetch_commutes_ok envB envP (htr l0 hl0)).1⟩
      obtain ⟨hu, l0, hQ0, hl0, hf0⟩ := insertAllOut_inv
        (fun v => ∃ l0, Q l0 ∧ l0.url = v.url ∧
          fetch_commutes envB envP l0 = Except.ok v)
        (reorder (c.map (fetchOk envB envP))) m hbase hins k v h
      exact ⟨hu, l0, hQ0, by rw [hl0, hu], hf0⟩
    obtain ⟨m3, sleeps3, heq, hinv3, hmono3, hcov3⟩ := ih (i + 1)
      (insertAllOut BListing.url m (reorder (c.map (fetchOk envB envP))))
      (if dur i < 60 ∧ i + 1 < total then sleeps ++ [60 - dur i] else sleeps)
      (fun c2 hc2 l hl => hch c2 (by simp [hc2]) l hl) hinv2
    refine ⟨m3, sleeps3, ?_, hinv3, ?_, ?_⟩
    · rw [batch_fetch_commutes_go, hmap]
      exact heq
    · intro k h
      exact hmono3 k (insertAllOut_isSome_mono _ m k h)
    · intro l hl
      rw [List.flatten_cons] at hl
      rcases List.mem_append.mp hl with hl2 | hl2
      · have hfl : fetchOk envB envP l ∈ reorder (c.map (fetchOk envB envP)) :=
          ((hre _).mem_iff).mpr (List.mem_map_of_mem _ hl2)
        have hu : (fetchOk envB envP l).url = l.url :=
          (fetch_commutes_ok envB envP (htr l hl2)).2
        have hsome := @insertAllOut_isSome_of_mem _ BListing.url
          (reorder (c.map (fetchOk envB envP))) m (fetchOk envB envP l) hfl
        rw [show BListing.url (fetchOk envB envP l) = l.url from hu] at hsome
        exact hmono3 _ hsome
      · exact hcov3 l hl2

/-- A result-dict lookup in the final projection
`[outputs[str(scr.url)] for scr in inputs]`; the fallback is unreachable
under the coverage invariant. -/
def projOut (m : String → Option BListing) (scr : BListing) : BListing :=
  match m scr.url with
  | some v => v
  | none => scr

/-- C1: for coordinate-carrying inputs, `batch_fetch_commutes` succeeds
with an output of the same length whose i-th element has the i-th input's
URL, for every fetch environment (including failing bike or transit
fetches, which merely leave the corresponding field unset) and every
completion order of the workers inside a chunk; when the input URLs are
distinct, the i-th output is exactly the enrichment of the i-th input. -/
theorem batch_fetch_commutes_order (envB envP : ℚ → ℚ → Option Unit)
    (reorder : List BListing → List BListing)
    (hre : ∀ rs, List.Perm (reorder rs) rs) (dur : ℕ → ℚ)
    (inputs : List BListing) (n : ℕ) (hn : 0 < n)
    (hc : ∀ l ∈ inputs, truthyCoords l) :
    ∃ out, (batch_fetch_commutes envB envP reorder dur inputs n).1 =
        Except.ok out ∧
      out.length = inputs.length ∧
      (∀ i (hi : i < inputs.length) (ho : i < out.length),
        (out.get ⟨i, ho⟩).url = (inputs.get ⟨i, hi⟩).url) ∧
      ((inputs.map BListing.url).Nodup →
        ∀ i (hi : i < inputs.length) (ho : i < out.length),
          fetch_commutes envB envP (inputs.get ⟨i, hi⟩) =
            Except.ok (out.get ⟨i, ho⟩)) := by
  have hch : ∀ c ∈ chunked inputs n, ∀ l ∈ c, truthyCoords l ∧ l ∈ inputs :=
    fun c hc2 l hl => ⟨hc l (chunked_mem_subset hn inputs hc2 hl),
      chunked_mem_subset hn inputs hc2 hl⟩
  obtain ⟨m2, sleeps2, heq, hinv, hmono, hcov⟩ :=
    bfc_go_props envB envP reorder hre dur (chunked inputs n).length
      (fun l => l ∈ inputs) (chunked inputs n) 0 (fun _ => none) []
      hch (fun k v h => absurd h (by simp))
  have hcov2 : ∀ l ∈ inputs, (m2 l.url).isSome = true := by
    intro l hl
    refine hcov l ?_
    rw [chunked_join hn]
    exact hl
  have hproj : ∀ scr ∈ inputs,
      (fun scr => (m2 scr.url).elim (Except.error "KeyError") Except.ok) scr =
        Except.ok (projOut m2 scr) := by
    intro scr hscr
    rcases hm : m2 scr.url with _ | v
    · have := hcov2 scr hscr
      rw [hm] at this
      cases this
    · simp only [projOut, hm]
      rfl
  have hmapex : mapExcept
      (fun scr => (m2 scr.url).elim (Except.error "KeyError") Except.ok)
      inputs = Except.ok (inputs.map (projOut m2)) :=
    mapExcept_ok_of_forall inputs hproj
  refine ⟨inputs.map (projOut m2), ?_, by simp, ?_, ?_⟩
  · show (match batch_fetch_commutes_go envB envP reorder dur
        (chunked inputs n).length 0 (chunked inputs n) (fun _ => none) [] with
      | (Except.error e, sleeps) => (Except.error e, sleeps)
      | (Except.ok outputs, sleeps) =>
        (mapExcept (fun scr : BListing =>
          (outputs scr.url).elim (Except.error "KeyError") Except.ok) inputs,
         sleeps)).1 = Except.ok (inputs.map (projOut m2))
    rw [heq]
    exact hmapex
  · intro i hi ho
    rw [List.get_eq_getElem, List.get_eq_getElem, List.getElem_map]
    have hmem : inputs[i] ∈ inputs := List.getElem_mem hi
    obtain ⟨v, hv⟩ := Option.isSome_iff_exists.mp (hcov2 _ hmem)
    have hvurl := (hinv _ v hv).1
    simp only [projOut, hv]
    exact hvurl
  · intro hnd i hi ho
    rw [List.get_eq_getElem, List.get_eq_getElem, List.getElem_map]
    have hmem : inputs[i] ∈ inputs := List.getElem_mem hi
    obtain ⟨v, hv⟩ := Option.isSome_iff_exists.mp (hcov2 _ hmem)
    obtain ⟨hvurl, l0, hl0mem, hl0url, hl0f⟩ := hinv _ v hv
    obtain ⟨j, hj, hjeq⟩ := List.mem_iff_getElem.mp hl0mem
    have hji : j = i := by
      have hinj := List.nodup_iff_injective_get.mp hnd
      have hgeteq : (inputs.map BListing.url).get ⟨j, by simpa using hj⟩ =
          (inputs.map BListing.url).get ⟨i, by simpa using hi⟩ := by
        rw [List.get_eq_getElem, List.get_eq_getElem, List.getElem_map,
          List.getElem_map, hjeq, hl0url]
      exact congrArg Fin.val (hinj hgeteq)
    have hl0eq : l0 = inputs[i] := by
      subst hji
      exact hjeq.symm
    simp only [projOut, hv]
    rw [← hl0eq]
    exact hl0f

/-- Concrete bike-fetch environment: always succeeds. -/
def cexEnvB : ℚ → ℚ → Option Unit := fun _ _ => some ()

/-- Concrete transit-fetch environment: always fails (returns `None`). -/
def cexEnvP : ℚ → ℚ → Option Unit := fun _ _ => none

/-- Concrete coordinate-carrying inputs. -/
def cexInputs : List BListing :=
  [⟨"a", some 1, some 1, none, none⟩, ⟨"b", some 2, some 2, none, some ()⟩]

/-- Witness for C1: a run with two one-listing chunks, reversed worker
completion order, and a failing public-transport environment still
succeeds in input order. -/
theorem batch_fetch_commutes_order_witness :
    ∃ out, (batch_fetch_commutes cexEnvB cexEnvP List.reverse (fun _ => 0)
        cexInputs 1).1 = Except.ok out ∧
      out.length = cexInputs.length ∧
      (∀ i (hi : i < cexInputs.length) (ho : i < out.length),
        (out.get ⟨i, ho⟩).url = (cexInputs.get ⟨i, hi⟩).url) ∧
      ((cexInputs.map BListing.url).Nodup →
        ∀ i (hi : i < cexInputs.length) (ho : i < out.length),
          fetch_commutes cexEnvB cexEnvP (cexInputs.get ⟨i, hi⟩) =
            Except.ok (out.get ⟨i, ho⟩)) :=
  batch_fetch_commutes_order cexEnvB cexEnvP List.reverse
    (fun rs => List.reverse_perm rs) (fun _ => 0) cexInputs 1 (by decide)
    (by
      intro l hl
      rcases (by simpa [cexInputs] using hl :
          l = (⟨"a", some 1, some 1, none, none⟩ : BListing) ∨
          l = (⟨"b", some 2, some 2, none, some ()⟩ : BListing)) with rfl | rfl
      · exact ⟨1, 1, rfl, rfl, by norm_num, by norm_num⟩
      · exact ⟨2, 2, rfl, rfl, by norm_num, by norm_num⟩)

/-! ### C10: a falsy coordinate aborts the whole batch -/

theorem bfc_go_error (envB envP : ℚ → ℚ → Option Unit)
    (reorder : List BListing → List BListing) (dur : ℕ → ℚ) (total : ℕ) :
    ∀ (chunks : List (List BListing)) (i : ℕ)
      (m : String → Option BListing) (sleeps : List ℚ),
      (∃ c ∈ chunks, ∃ l ∈ c,
        fetch_commutes envB envP l = Except.error "AssertionError") →
      ∃ sleeps2,
        batch_fetch_commutes_go envB envP reorder dur total i chunks m sleeps =
          (Except.error "AssertionError", sleeps2) := by
  intro chunks
  induction chunks with
  | nil =>
    rintro i m sleeps ⟨c, hc, _⟩
    exact absurd hc (by simp)
  | cons c rest ih =>
    rintro i m sleeps ⟨c2, hc2, l, hl, hfl⟩
    rcases hmap : mapExcept (fetch_commutes envB envP) c with e | results
    · obtain ⟨x, hx, hfx⟩ := mapExcept_error_mem hmap
      obtain rfl : e = "AssertionError" := by
        rcases fetch_commutes_shape envB envP x with ⟨v, hv⟩ | hv
        · rw [hv] at hfx; cases hfx
        · rw [hv] at hfx
          injection hfx with h2
          exact h2.symm
      exact ⟨sleeps, by rw [batch_fetch_commutes_go, hmap]⟩
    · rcases List.mem_cons.mp hc2 with rfl | hc3
      · obtain ⟨y, hy⟩ := mapExcept_ok_forall hmap l hl
        rw [hy] at hfl
        cases hfl
      · obtain ⟨sleeps2, hrec⟩ := ih (i + 1)
          (insertAllOut BListing.url m (reorder results))
          (if dur i < 60 ∧ i + 1 < total then sleeps ++ [60 - dur i] else sleeps)
          ⟨c2, hc3, l, hl, hfl⟩
        exact ⟨sleeps2, by rw [batch_fetch_commutes_go, hmap]; exact hrec⟩

/-- C10: `fetch_commutes` asserts truthy coordinates, so one input with a
missing (or `0.0`) latitude or longitude makes the whole
`batch_fetch_commutes` call raise `AssertionError` out of the worker
pool: no results are returned for any listing. -/
theorem batch_fetch_commutes_assert_aborts (envB envP : ℚ → ℚ → Option Unit)
    (reorder : List BListing → List BListing) (dur : ℕ → ℚ)
    (inputs : List BListing) (n : ℕ) (hn : 0 < n) (lbad : BListing)
    (hmem : lbad ∈ inputs)
    (hbad : lbad.latitude = none ∨ lbad.longitude = none ∨
      lbad.latitude = some 0 ∨ lbad.longitude = some 0) :
    (batch_fetch_commutes envB envP reorder dur inputs n).1 =
      Except.error "AssertionError" := by
  have hfe : fetch_commutes envB envP lbad = Except.error "AssertionError" := by
    apply fetch_commutes_error
    rintro ⟨lat, lon, hlat, hlon, h0, h1⟩
    rcases hbad with hb | hb | hb | hb
    · rw [hb] at hlat; cases hlat
    · rw [hb] at hlon; cases hlon
    · rw [hb] at hlat
      exact h0 (Option.some.inj hlat).symm
    · rw [hb] at hlon
      exact h1 (Option.some.inj hlon).symm
  obtain ⟨c, hcin, hlin⟩ : ∃ c ∈ chunked inputs n, lbad ∈ c := by
    have : lbad ∈ (chunked inputs n).flatten := by
      rw [chunked_join hn]
      exact hmem
    exact List.mem_flatten.mp this
  obtain ⟨sleeps2, hgo⟩ := bfc_go_error envB envP reorder dur
    (chunked inputs n).length (chunked inputs n) 0 (fun _ => none) []
    ⟨c, hcin, lbad, hlin, hfe⟩
  show (match batch_fetch_commutes_go envB envP reorder dur
      (chunked inputs n).length 0 (chunked inputs n) (fun _ => none) [] with
    | (Except.error e, sleeps) => (Except.error e, sleeps)
    | (Except.ok outputs, sleeps) =>
      (mapExcept (fun scr : BListing =>
        (outputs scr.url).elim (Except.error "KeyError") Except.ok) inputs,
       sleeps)).1 = Except.error "AssertionError"
  rw [hgo]

/-- Witness for C10: a single listing with an unset latitude aborts the
batch with `AssertionError`. -/
theorem batch_fetch_commutes_assert_aborts_witness :
    (batch_fetch_commutes cexEnvB cexEnvP List.reverse (fun _ => 0)
      [⟨"bad", none, some 1, none, none⟩] 40).1 =
      Except.error "AssertionError" :=
  batch_fetch_commutes_assert_aborts cexEnvB cexEnvP List.reverse (fun _ => 0)
    [⟨"bad", none, some 1, none, none⟩] 40 (by decide)
    ⟨"bad", none, some 1, none, none⟩ (by simp) (Or.inl rfl)

/-! ### C2: window sleeps of the two batchers -/

theorem bfc_go_sleeps (envB envP : ℚ → ℚ → Option Unit)
    (reorder : List BListing → List BListing) (dur : ℕ → ℚ) (total : ℕ) :
    ∀ (chunks : List (List BListing)) (i : ℕ)
      (m : String → Option BListing) (sleeps : List ℚ),
      (∀ c ∈ chunks, ∀ l ∈ c, truthyCoords l) →
      (batch_fetch_commutes_go envB envP reorder dur total i chunks m
        sleeps).2 =
        sleeps ++ (List.range' i chunks.length).filterMap (fun j =>
          if dur j < 60 ∧ j + 1 < total then some (60 - dur j) else none) := by
  intro chunks
  induction chunks with
  | nil =>
    intro i m sleeps _
    simp [batch_fetch_commutes_go]
  | cons c rest ih =>
    intro i m sleeps hch
    have hmap : mapExcept (fetch_commutes envB envP) c =
        Except.ok (c.map (fetchOk envB envP)) :=
      mapExcept_ok_of_forall c
        (fun x hx => (fetch_commutes_ok envB envP (hch c (by simp) x hx)).1)
    rw [batch_fetch_commutes_go, hmap]
    show (batch_fetch_commutes_go envB envP reorder dur total (i + 1) rest
        (insertAllOut BListing.url m
          (reorder (c.map (fetchOk envB envP))))
        (if dur i < 60 ∧ i + 1 < total then sleeps ++ [60 - dur i]
          else sleeps)).2 =
      sleeps ++ (List.range' i (rest.length + 1)).filterMap (fun j =>
        if dur j < 60 ∧ j + 1 < total then some (60 - dur j) else none)
    rw [ih (i + 1) _ _ (fun c2 hc2 l hl => hch c2 (by simp [hc2]) l hl)]
    rw [List.range'_succ, List.filterMap_cons]
    by_cases h0 : dur i < 60 ∧ i + 1 < total
    · rw [if_pos h0, if_pos h0]
      simp
    · rw [if_neg h0, if_neg h0]

/-- C2 amended: `batch_fetch_commutes` sleeps exactly the remainder of
the 60-second window after each non-final chunk that finishes early and
performs no sleep after the final chunk (the sleep list is exactly the
one indexed by chunks `j` with `j + 1 < numChunks`);
`batch_create_listing_stored`, by contrast, has no final-chunk guard:
after a (final) minute chunk whose elapsed time is under 60 seconds it
sleeps the remainder of the minute. -/
theorem rate_limiter_window_sleeps :
    (∀ (envB envP : ℚ → ℚ → Option Unit)
      (reorder : List BListing → List BListing) (dur : ℕ → ℚ)
      (inputs : List BListing) (n : ℕ),
      0 < n → (∀ l ∈ inputs, truthyCoords l) →
      (batch_fetch_commutes envB envP reorder dur inputs n).2 =
        (List.range' 0 (chunked inputs n).length).filterMap (fun j =>
          if dur j < 60 ∧ j + 1 < (chunked inputs n).length then
            some (60 - dur j) else none)) ∧
    (∀ (env : SListing → Except String SListing) (wd : ℕ → ℕ → ℚ)
      (nsec i : ℕ) (mb : List SListing) (m : String → Option SListing)
      (sleeps s2 : List ℚ) (m2 : String → Option SListing) (elapsed : ℚ),
      bcls_sec_go env (wd i) 0 (chunked mb nsec) m sleeps 0 =
        (Except.ok m2, s2, elapsed) →
      elapsed < 60 →
      (bcls_min_go env wd nsec i [mb] m sleeps).2 = s2 ++ [60 - elapsed]) := by
  constructor
  · intro envB envP reorder dur inputs n hn hc
    have hch : ∀ c ∈ chunked inputs n, ∀ l ∈ c, truthyCoords l :=
      fun c hc2 l hl => hc l (chunked_mem_subset hn inputs hc2 hl)
    have hsl := bfc_go_sleeps envB envP reorder dur (chunked inputs n).length
      (chunked inputs n) 0 (fun _ => none) [] hch
    have hsnd : (batch_fetch_commutes envB envP reorder dur inputs n).2 =
        (batch_fetch_commutes_go envB envP reorder dur
          (chunked inputs n).length 0 (chunked inputs n)
          (fun _ => none) []).2 := by
      unfold batch_fetch_commutes
      rcases hgo : batch_fetch_commutes_go envB envP reorder dur
        (chunked inputs n).length 0 (chunked inputs n)
        (fun _ => none) [] with ⟨r, s⟩
      cases r <;> rfl
    rw [hsnd, hsl]
    simp
  · intro env wd nsec i mb m sleeps s2 m2 elapsed hsec hlt
    rw [bcls_min_go, hsec]
    show (bcls_min_go env wd nsec (i + 1) [] m2
      (if elapsed < 60 then s2 ++ [60 - elapsed] else s2)).2 =
      s2 ++ [60 - elapsed]
    rw [if_pos hlt]
    rfl

/-- Always-succeeding environment for `create_listing_stored` (the
function catches its own fetch/parse failures and still returns a
listing). -/
def cexEnvS : SListing → Except String SListing := fun l => Except.ok l

/-- The result dict after the single second-batch of the counterexample
run. -/
def cexSecMap : String → Option SListing :=
  insertAllOut SListing.url (fun _ => none) [⟨"u"⟩]

theorem chunked_su_40 : chunked ([⟨"u"⟩] : List SListing) 40 = [[⟨"u"⟩]] := by
  simp [chunked]

theorem chunked_su_2 : chunked ([⟨"u"⟩] : List SListing) 2 = [[⟨"u"⟩]] := by
  simp [chunked]

theorem chunked_cexInputs_1 :
    chunked cexInputs 1 =
      [[⟨"a", some 1, some 1, none, none⟩],
       [⟨"b", some 2, some 2, none, some ()⟩]] := by
  simp [chunked, cexInputs]

theorem bcls_sec_cex :
    bcls_sec_go cexEnvS (fun _ => 0) 0 (chunked ([⟨"u"⟩] : List SListing) 2)
      (fun _ => none) [] 0 = (Except.ok cexSecMap, [1], 1) := by
  rw [chunked_su_2, bcls_sec_go]
  rw [show mapExcept cexEnvS [(⟨"u"⟩ : SListing)] = Except.ok [⟨"u"⟩] from rfl]
  show bcls_sec_go cexEnvS (fun _ => 0) 1 []
      (insertAllOut SListing.url (fun _ => none) [⟨"u"⟩])
      (if (0 : ℚ) < 1 then [] ++ [1 - 0] else [])
      (if (0 : ℚ) < 1 then 0 + 0 + (1 - 0) else 0 + 0) =
    (Except.ok cexSecMap, [1], 1)
  rw [if_pos (by norm_num : (0 : ℚ) < 1), if_pos (by norm_num : (0 : ℚ) < 1)]
  rw [show ([] : List ℚ) ++ [1 - 0] = [1] by norm_num,
    show (0 : ℚ) + 0 + (1 - 0) = 1 by norm_num]
  rfl

/-- Counterexample for C2: a run of `batch_create_listing_stored` with a
single (hence final) minute chunk of one listing, all work instantaneous,
performs the sleeps `[1, 59]` — a one-second-window sleep and a trailing
59-second minute sleep after the final chunk — where the claim requires
no sleep at all after the final chunk. -/
theorem create_stored_trailing_sleep :
    (chunked ([⟨"u"⟩] : List SListing) 40).length = 1 ∧
    (batch_create_listing_stored cexEnvS (fun _ _ => 0) [⟨"u"⟩] 40 2).2 =
      [1, 59] := by
  have hmin : bcls_min_go cexEnvS (fun _ _ => 0) 2 0
      (chunked ([⟨"u"⟩] : List SListing) 40) (fun _ => none) [] =
      (Except.ok cexSecMap, [1, 59]) := by
    rw [chunked_su_40, bcls_min_go, bcls_sec_cex]
    show bcls_min_go cexEnvS (fun _ _ => 0) 2 1 [] cexSecMap
        (if (1 : ℚ) < 60 then [1] ++ [60 - 1] else [1]) =
      (Except.ok cexSecMap, [1, 59])
    rw [if_pos (by norm_num : (1 : ℚ) < 60)]
    rw [show ([1] : List ℚ) ++ [60 - 1] = [1, 59] by norm_num]
    rfl
  constructor
  · rw [chunked_su_40]
    rfl
  · show (match bcls_min_go cexEnvS (fun _ _ => 0) 2 0
        (chunked ([⟨"u"⟩] : List SListing) 40) (fun _ => none) [] with
      | (Except.error e, sleeps) => (Except.error e, sleeps)
      | (Except.ok outputs, sleeps) =>
        (mapExcept (fun scr : SListing =>
          (outputs scr.url).elim (Except.error "KeyError") Except.ok)
          [⟨"u"⟩], sleeps)).2 = ([1, 59] : List ℚ)
    rw [hmin]

/-- Witness for C2's amended theorem: the two-chunk commutes run sleeps
exactly `[50]` (no trailing sleep), and the one-chunk stored run performs
the trailing minute sleep. -/
theorem rate_limiter_window_sleeps_witness :
    (batch_fetch_commutes cexEnvB cexEnvP List.reverse (fun _ => 10)
      cexInputs 1).2 = [50] ∧
    (bcls_min_go cexEnvS (fun _ _ => 0) 2 0 [[⟨"u"⟩]] (fun _ => none) []).2 =
      [1] ++ [60 - (1 : ℚ)] := by
  constructor
  · have h := rate_limiter_window_sleeps.1 cexEnvB cexEnvP List.reverse
      (fun _ => 10) cexInputs 1 (by decide)
      (by
        intro l hl
        rcases (by simpa [cexInputs] using hl :
            l = (⟨"a", some 1, some 1, none, none⟩ : BListing) ∨
            l = (⟨"b", some 2, some 2, none, some ()⟩ : BListing)) with rfl | rfl
        · exact ⟨1, 1, rfl, rfl, by norm_num, by norm_num⟩
        · exact ⟨2, 2, rfl, rfl, by norm_num, by norm_num⟩)
    rw [h, chunked_cexInputs_1]
    show List.filterMap
      (fun j => if (10 : ℚ) < 60 ∧ j + 1 < 2 then some ((60 : ℚ) - 10) else none)
      (List.range' 0 2) = [50]
    rw [show List.range' 0 2 = [0, 1] from rfl]
    have hc0 : (10 : ℚ) < 60 ∧ (0 : ℕ) + 1 < 2 := ⟨by norm_num, by norm_num⟩
    have hc1 : ¬((10 : ℚ) < 60 ∧ (1 : ℕ) + 1 < 2) :=
      fun hcon => absurd hcon.2 (by omega)
    simp only [List.filterMap_cons, List.filterMap_nil, if_pos hc0, if_neg hc1]
    norm_num
  · exact rate_limiter_window_sleeps.2 cexEnvS (fun _ _ => 0) 2 0 [⟨"u"⟩]
      (fun _ => none) [] [1] cexSecMap 1 bcls_sec_cex (by norm_num)

end WgTracker
